import Mathlib

/-!
Resource values of the rotation language and monk talents.

The source files modelled here are `sim/core/apl_values_resources.go`,
`sim/monk/crackling_jade_lightning.go` and `sim/monk/talents.go`. Whatever they
call in the rest of `sim/core` is either a parameter or a definition marked
`Modelled from the spec`.

Shallow embedding conventions.

* `float64` quantities are modelled in exact arithmetic as `ℚ`.
* `time.Duration` is an `Int` number of nanoseconds.
* A non-nil Go pointer `*Unit` is a `UnitId`; the heap of units is a total map
  `UnitId → Unit`, a possibly nil pointer is an `Option UnitId`.
* Stateful code is written in state-passing style; a run-time panic sets a flag
  on the state and ends the call that raised it.
* A conversion of a float to `int32` or `int64` is the integer part when that
  fits the type, and the least value of the type otherwise.
* Loops are total recursive functions on the loop variable.
-/

namespace proto

/-- Severity of a validation message (`proto.LogLevel`). -/
inductive LogLevel
  | Undefined
  | Warning
  | Error
  deriving DecidableEq, Repr

/-- Result type announced by a value node (`proto.APLValueType`). -/
inductive APLValueType
  | ValueTypeUnknown
  | ValueTypeBool
  | ValueTypeInt
  | ValueTypeFloat
  | ValueTypeDuration
  | ValueTypeString
  deriving DecidableEq, Repr

/-- Identifier of a rotation entry (`proto.UUID`). -/
structure UUID where
  Value : String
  deriving DecidableEq, Repr

/-- Configured unit reference (`proto.UnitReference`), kept as its raw fields. -/
structure UnitReference where
  Kind : Nat
  Index : Int
  deriving DecidableEq, Repr

/-- Configuration message shared by the four values that take a source unit
(`proto.APLValueCurrentHealth`, `...HealthPercent`, `...Mana`, `...ManaPercent`):
the only field read by the constructors is `SourceUnit`, a possibly nil pointer. -/
structure APLValueSourceUnitConfig where
  SourceUnit : Option UnitReference
  deriving DecidableEq, Repr

/-- One message attached to a UUID (`proto.UUIDValidation` with one entry). -/
structure UUIDValidation where
  Uuid : UUID
  LogLevel : LogLevel
  Validation : String
  deriving DecidableEq, Repr

end proto

namespace core

/-- Identity of a non-nil `*Unit` pointer. -/
abbrev UnitId := Nat

/-- The part of `core.Unit` read by the resource values: label, the resource
bars the unit owns, and the current contents of each pool. -/
structure Unit where
  Label : String
  healthBar : Bool
  manaBar : Bool
  rageBar : Bool
  focusBar : Bool
  energyBar : Bool
  runicPowerBar : Bool
  currentHealth : ℚ
  maxHealth : ℚ
  currentMana : ℚ
  maxMana : ℚ
  currentRage : ℚ
  currentFocus : ℚ
  currentEnergy : ℚ
  comboPoints : Int
  currentRunicPower : ℚ
  maxRunicPower : ℚ

/-- Modelled from the spec: `Unit.HasHealthBar` is not among the source files modelled here; it is
the capability query of §6, a read of whether the unit owns the pool. -/
def Unit.HasHealthBar (u : Unit) : Bool := u.healthBar

/-- Modelled from the spec: `Unit.HasManaBar`, capability query of §6. -/
def Unit.HasManaBar (u : Unit) : Bool := u.manaBar

/-- Modelled from the spec: `Unit.HasRageBar`, capability query of §6. -/
def Unit.HasRageBar (u : Unit) : Bool := u.rageBar

/-- Modelled from the spec: `Unit.HasFocusBar`, capability query of §6. -/
def Unit.HasFocusBar (u : Unit) : Bool := u.focusBar

/-- Modelled from the spec: `Unit.HasEnergyBar`, capability query of §6. -/
def Unit.HasEnergyBar (u : Unit) : Bool := u.energyBar

/-- Modelled from the spec: `Unit.HasRunicPowerBar`, capability query of §6. -/
def Unit.HasRunicPowerBar (u : Unit) : Bool := u.runicPowerBar

/-- Modelled from the spec: `Unit.CurrentHealth`, the `Current` query of §6. -/
def Unit.CurrentHealth (u : Unit) : ℚ := u.currentHealth

/-- Modelled from the spec: `Unit.CurrentHealthPercent`, the `PercentOf` query of §6,
current over maximum. -/
def Unit.CurrentHealthPercent (u : Unit) : ℚ := u.currentHealth / u.maxHealth

/-- Modelled from the spec: `Unit.CurrentMana`, the `Current` query of §6. -/
def Unit.CurrentMana (u : Unit) : ℚ := u.currentMana

/-- Modelled from the spec: `Unit.CurrentManaPercent`, the `PercentOf` query of §6,
current over maximum. -/
def Unit.CurrentManaPercent (u : Unit) : ℚ := u.currentMana / u.maxMana

/-- Modelled from the spec: `Unit.CurrentRage`, the `Current` query of §6. -/
def Unit.CurrentRage (u : Unit) : ℚ := u.currentRage

/-- Modelled from the spec: `Unit.CurrentFocus`, the `Current` query of §6. -/
def Unit.CurrentFocus (u : Unit) : ℚ := u.currentFocus

/-- Modelled from the spec: `Unit.CurrentEnergy`, the `Current` query of §6. -/
def Unit.CurrentEnergy (u : Unit) : ℚ := u.currentEnergy

/-- Modelled from the spec: `Unit.ComboPoints`, the `Current` query of §6 (an `int32`). -/
def Unit.ComboPoints (u : Unit) : Int := u.comboPoints

/-- Modelled from the spec: `Unit.CurrentRunicPower`, the `Current` query of §6. -/
def Unit.CurrentRunicPower (u : Unit) : ℚ := u.currentRunicPower

/-- Modelled from the spec: `Unit.MaxRunicPower`, the `Max` query of §6. -/
def Unit.MaxRunicPower (u : Unit) : ℚ := u.maxRunicPower

/-- The integer part of a float: the fractional part is discarded (truncation toward
zero), as Go does when it converts a float to an integer type. -/
def floatToInt (x : ℚ) : Int := Int.tdiv x.num (x.den : Int)

/-- Go conversion `int32(x)` of a float: the integer part when it fits an `int32`.
When it does not fit, Go leaves the result to the implementation; the value
returned by the amd64 compiler is taken. Whatever the implementation, the result
is an `int32`. -/
def int32OfFloat (x : ℚ) : Int :=
  if -2147483648 ≤ floatToInt x ∧ floatToInt x ≤ 2147483647 then floatToInt x
  else -2147483648

/-- Go conversion `time.Duration(x)` of a float, an `int64`: the integer part when it
fits, the value returned by the amd64 compiler otherwise. -/
def int64OfFloat (x : ℚ) : Int :=
  if -9223372036854775808 ≤ floatToInt x ∧ floatToInt x ≤ 9223372036854775807 then floatToInt x
  else -9223372036854775808

/-- The kernel state an evaluation can see: the clock and the heap of units. -/
structure Simulation where
  CurrentTime : Int
  units : UnitId → Unit

/-- Resolved unit reference (`core.UnitReference`): `Get` yields the unit pointer or nil. -/
structure UnitReference where
  target : Option UnitId
  deriving DecidableEq, Repr

/-- Pointer held by the reference (`UnitReference.Get`). -/
def UnitReference.Get (ref : UnitReference) : Option UnitId := ref.target

/-- The part of `core.APLRotation` used by the constructors: the owning unit, the
resolver behind `GetSourceUnit` (not among the source files modelled here, taken as a
parameter) and the messages recorded per UUID. -/
structure APLRotation where
  unit : UnitId
  sourceUnits : Option proto.UnitReference → UnitReference
  uuidWarnings : List proto.UUIDValidation

/-- Resolution of a configured source unit (`APLRotation.GetSourceUnit`). -/
def APLRotation.GetSourceUnit (rot : APLRotation) (ref : Option proto.UnitReference) :
    UnitReference :=
  rot.sourceUnits ref

/-- Modelled from the spec: `APLRotation.ValidationMessageByUUID` is not among the
source files modelled here; per §6 it emits one diagnostic (severity and text) for the given UUID. -/
def APLRotation.ValidationMessageByUUID (rot : APLRotation) (uuid : proto.UUID)
    (level : proto.LogLevel) (message : String) : APLRotation :=
  { rot with uuidWarnings := rot.uuidWarnings ++ [⟨uuid, level, message⟩] }

/-- Value nodes of `apl_values_resources.go`, one constructor per Go struct. -/
inductive APLValue
  | CurrentHealth (unit : UnitReference)
  | CurrentHealthPercent (unit : UnitReference)
  | CurrentMana (unit : UnitReference)
  | CurrentManaPercent (unit : UnitReference)
  | CurrentRage (unit : UnitId)
  | CurrentFocus (unit : UnitId)
  | CurrentEnergy (unit : UnitId)
  | CurrentComboPoints (unit : UnitId)
  | CurrentRunicPower (unit : UnitId)
  | MaxRunicPower (maxRunicPower : Int)
  deriving DecidableEq, Repr

/-- Constructor `newValueCurrentHealth`. -/
def APLRotation.newValueCurrentHealth (rot : APLRotation) (heap : UnitId → Unit)
    (config : proto.APLValueSourceUnitConfig) (uuid : proto.UUID) :
    Option APLValue × APLRotation :=
  let unit := rot.GetSourceUnit config.SourceUnit
  match unit.Get with
  | none => (none, rot)
  | some p =>
    if !(heap p).HasHealthBar then
      (none, rot.ValidationMessageByUUID uuid proto.LogLevel.Warning
        ((heap p).Label ++ " does not use Health"))
    else
      (some (APLValue.CurrentHealth unit), rot)

/-- Constructor `newValueCurrentHealthPercent`. -/
def APLRotation.newValueCurrentHealthPercent (rot : APLRotation) (heap : UnitId → Unit)
    (config : proto.APLValueSourceUnitConfig) (uuid : proto.UUID) :
    Option APLValue × APLRotation :=
  let unit := rot.GetSourceUnit config.SourceUnit
  match unit.Get with
  | none => (none, rot)
  | some p =>
    if !(heap p).HasHealthBar then
      (none, rot.ValidationMessageByUUID uuid proto.LogLevel.Warning
        ((heap p).Label ++ " does not use Health"))
    else
      (some (APLValue.CurrentHealthPercent unit), rot)

/-- Constructor `newValueCurrentMana`. -/
def APLRotation.newValueCurrentMana (rot : APLRotation) (heap : UnitId → Unit)
    (config : proto.APLValueSourceUnitConfig) (uuid : proto.UUID) :
    Option APLValue × APLRotation :=
  let unit := rot.GetSourceUnit config.SourceUnit
  match unit.Get with
  | none => (none, rot)
  | some p =>
    if !(heap p).HasManaBar then
      (none, rot.ValidationMessageByUUID uuid proto.LogLevel.Warning
        ((heap p).Label ++ " does not use Mana"))
    else
      (some (APLValue.CurrentMana unit), rot)

/-- Constructor `newValueCurrentManaPercent`. -/
def APLRotation.newValueCurrentManaPercent (rot : APLRotation) (heap : UnitId → Unit)
    (config : proto.APLValueSourceUnitConfig) (uuid : proto.UUID) :
    Option APLValue × APLRotation :=
  let unit := rot.GetSourceUnit config.SourceUnit
  match unit.Get with
  | none => (none, rot)
  | some p =>
    if !(heap p).HasManaBar then
      (none, rot.ValidationMessageByUUID uuid proto.LogLevel.Warning
        ((heap p).Label ++ " does not use Mana"))
    else
      (some (APLValue.CurrentManaPercent unit), rot)

/-- Constructor `newValueCurrentRage`. -/
def APLRotation.newValueCurrentRage (rot : APLRotation) (heap : UnitId → Unit)
    (uuid : proto.UUID) : Option APLValue × APLRotation :=
  let unit := rot.unit
  if !(heap unit).HasRageBar then
    (none, rot.ValidationMessageByUUID uuid proto.LogLevel.Warning
      ((heap unit).Label ++ " does not use Rage"))
  else
    (some (APLValue.CurrentRage unit), rot)

/-- Constructor `newValueCurrentFocus`. -/
def APLRotation.newValueCurrentFocus (rot : APLRotation) (heap : UnitId → Unit)
    (uuid : proto.UUID) : Option APLValue × APLRotation :=
  let unit := rot.unit
  if !(heap unit).HasFocusBar then
    (none, rot.ValidationMessageByUUID uuid proto.LogLevel.Warning
      ((heap unit).Label ++ " does not use Focus"))
  else
    (some (APLValue.CurrentFocus unit), rot)

/-- Constructor `newValueCurrentEnergy`. -/
def APLRotation.newValueCurrentEnergy (rot : APLRotation) (heap : UnitId → Unit)
    (uuid : proto.UUID) : Option APLValue × APLRotation :=
  let unit := rot.unit
  if !(heap unit).HasEnergyBar then
    (none, rot.ValidationMessageByUUID uuid proto.LogLevel.Warning
      ((heap unit).Label ++ " does not use Energy"))
  else
    (some (APLValue.CurrentEnergy unit), rot)

/-- Constructor `newValueCurrentComboPoints`. -/
def APLRotation.newValueCurrentComboPoints (rot : APLRotation) (heap : UnitId → Unit)
    (uuid : proto.UUID) : Option APLValue × APLRotation :=
  let unit := rot.unit
  if !(heap unit).HasEnergyBar then
    (none, rot.ValidationMessageByUUID uuid proto.LogLevel.Warning
      ((heap unit).Label ++ " does not use Combo Points"))
  else
    (some (APLValue.CurrentComboPoints unit), rot)

/-- Constructor `newValueCurrentRunicPower`. -/
def APLRotation.newValueCurrentRunicPower (rot : APLRotation) (heap : UnitId → Unit)
    (uuid : proto.UUID) : Option APLValue × APLRotation :=
  let unit := rot.unit
  if !(heap unit).HasRunicPowerBar then
    (none, rot.ValidationMessageByUUID uuid proto.LogLevel.Warning
      ((heap unit).Label ++ " does not use Runic Power"))
  else
    (some (APLValue.CurrentRunicPower unit), rot)

/-- Constructor `newValueMaxRunicPower`. -/
def APLRotation.newValueMaxRunicPower (rot : APLRotation) (heap : UnitId → Unit)
    (uuid : proto.UUID) : Option APLValue × APLRotation :=
  let unit := rot.unit
  if !(heap unit).HasRunicPowerBar then
    (none, rot.ValidationMessageByUUID uuid proto.LogLevel.Error
      ((heap unit).Label ++ " does not use Runic Power"))
  else
    (some (APLValue.MaxRunicPower (int32OfFloat (heap unit).MaxRunicPower)), rot)

/-- Method `Type()` of each node. -/
def APLValue.Type : APLValue → proto.APLValueType
  | .CurrentHealth _ => proto.APLValueType.ValueTypeFloat
  | .CurrentHealthPercent _ => proto.APLValueType.ValueTypeFloat
  | .CurrentMana _ => proto.APLValueType.ValueTypeFloat
  | .CurrentManaPercent _ => proto.APLValueType.ValueTypeFloat
  | .CurrentRage _ => proto.APLValueType.ValueTypeFloat
  | .CurrentFocus _ => proto.APLValueType.ValueTypeFloat
  | .CurrentEnergy _ => proto.APLValueType.ValueTypeFloat
  | .CurrentComboPoints _ => proto.APLValueType.ValueTypeInt
  | .CurrentRunicPower _ => proto.APLValueType.ValueTypeInt
  | .MaxRunicPower _ => proto.APLValueType.ValueTypeInt

/-- Method `GetFloat(sim)` of each node, as a state transformer on the simulation:
the result is `none` when the call does not return a number (a nil unit
dereference, or a node that only inherits the method from `DefaultAPLValueImpl`,
which is not among the source files modelled here). -/
def APLValue.GetFloat (value : APLValue) (sim : Simulation) : Option ℚ × Simulation :=
  match value with
  | .CurrentHealth unit => (unit.Get.map fun p => (sim.units p).CurrentHealth, sim)
  | .CurrentHealthPercent unit => (unit.Get.map fun p => (sim.units p).CurrentHealthPercent, sim)
  | .CurrentMana unit => (unit.Get.map fun p => (sim.units p).CurrentMana, sim)
  | .CurrentManaPercent unit => (unit.Get.map fun p => (sim.units p).CurrentManaPercent, sim)
  | .CurrentRage unit => (some (sim.units unit).CurrentRage, sim)
  | .CurrentFocus unit => (some (sim.units unit).CurrentFocus, sim)
  | .CurrentEnergy unit => (some (sim.units unit).CurrentEnergy, sim)
  | .CurrentComboPoints _ => (none, sim)
  | .CurrentRunicPower _ => (none, sim)
  | .MaxRunicPower _ => (none, sim)

/-- Method `GetInt(sim)` of each node, as a state transformer on the simulation
(`none` as for `GetFloat`). -/
def APLValue.GetInt (value : APLValue) (sim : Simulation) : Option Int × Simulation :=
  match value with
  | .CurrentComboPoints unit => (some (sim.units unit).ComboPoints, sim)
  | .CurrentRunicPower unit => (some (int32OfFloat (sim.units unit).CurrentRunicPower), sim)
  | .MaxRunicPower maxRunicPower => (some maxRunicPower, sim)
  | _ => (none, sim)

/-- The ten resource value constructors of the file. -/
inductive ResourceValue
  | CurrentHealth
  | CurrentHealthPercent
  | CurrentMana
  | CurrentManaPercent
  | CurrentRage
  | CurrentFocus
  | CurrentEnergy
  | CurrentComboPoints
  | CurrentRunicPower
  | MaxRunicPower
  deriving DecidableEq, Repr

/-- Call of the constructor named by `kind` (the four source-unit values read
`config`, the others ignore it). -/
def APLRotation.newValue (rot : APLRotation) (kind : ResourceValue) (heap : UnitId → Unit)
    (config : proto.APLValueSourceUnitConfig) (uuid : proto.UUID) :
    Option APLValue × APLRotation :=
  match kind with
  | .CurrentHealth => rot.newValueCurrentHealth heap config uuid
  | .CurrentHealthPercent => rot.newValueCurrentHealthPercent heap config uuid
  | .CurrentMana => rot.newValueCurrentMana heap config uuid
  | .CurrentManaPercent => rot.newValueCurrentManaPercent heap config uuid
  | .CurrentRage => rot.newValueCurrentRage heap uuid
  | .CurrentFocus => rot.newValueCurrentFocus heap uuid
  | .CurrentEnergy => rot.newValueCurrentEnergy heap uuid
  | .CurrentComboPoints => rot.newValueCurrentComboPoints heap uuid
  | .CurrentRunicPower => rot.newValueCurrentRunicPower heap uuid
  | .MaxRunicPower => rot.newValueMaxRunicPower heap uuid

/-- The unit a constructor validates against: the resolved source unit for the
health and mana values, the rotation's own unit for the others. -/
def APLRotation.targetUnit (rot : APLRotation) (kind : ResourceValue)
    (config : proto.APLValueSourceUnitConfig) : Option UnitId :=
  match kind with
  | .CurrentHealth | .CurrentHealthPercent | .CurrentMana | .CurrentManaPercent =>
    (rot.GetSourceUnit config.SourceUnit).Get
  | _ => some rot.unit

/-- Capability each value is stated to check. -/
def ResourceValue.capability (kind : ResourceValue) (u : Unit) : Bool :=
  match kind with
  | .CurrentHealth | .CurrentHealthPercent => u.HasHealthBar
  | .CurrentMana | .CurrentManaPercent => u.HasManaBar
  | .CurrentRage => u.HasRageBar
  | .CurrentFocus => u.HasFocusBar
  | .CurrentEnergy | .CurrentComboPoints => u.HasEnergyBar
  | .CurrentRunicPower | .MaxRunicPower => u.HasRunicPowerBar

/-- Text each value is stated to append to the unit label: `does not use <Resource>`. -/
def ResourceValue.doesNotUse : ResourceValue → String
  | .CurrentHealth | .CurrentHealthPercent => " does not use Health"
  | .CurrentMana | .CurrentManaPercent => " does not use Mana"
  | .CurrentRage => " does not use Rage"
  | .CurrentFocus => " does not use Focus"
  | .CurrentEnergy => " does not use Energy"
  | .CurrentComboPoints => " does not use Combo Points"
  | .CurrentRunicPower | .MaxRunicPower => " does not use Runic Power"

/-- Severity each value is stated to report at. -/
def ResourceValue.severity : ResourceValue → proto.LogLevel
  | .MaxRunicPower => proto.LogLevel.Error
  | _ => proto.LogLevel.Warning

/-- The diagnostic a value is stated to emit for a unit lacking the capability. -/
def ResourceValue.diagnostic (kind : ResourceValue) (u : Unit) (uuid : proto.UUID) :
    proto.UUIDValidation :=
  ⟨uuid, kind.severity, u.Label ++ kind.doesNotUse⟩

/-- Whether the value is one of the nine `Current*` values. -/
def ResourceValue.isCurrent : ResourceValue → Bool
  | .MaxRunicPower => false
  | _ => true

/-- Result type each `Current*` value is stated to have. -/
def ResourceValue.valueType : ResourceValue → proto.APLValueType
  | .CurrentComboPoints | .CurrentRunicPower | .MaxRunicPower => proto.APLValueType.ValueTypeInt
  | _ => proto.APLValueType.ValueTypeFloat

/-- The unit's value of the resource read by a float-typed value. -/
def ResourceValue.floatOf (kind : ResourceValue) (u : Unit) : ℚ :=
  match kind with
  | .CurrentHealth => u.CurrentHealth
  | .CurrentHealthPercent => u.CurrentHealthPercent
  | .CurrentMana => u.CurrentMana
  | .CurrentManaPercent => u.CurrentManaPercent
  | .CurrentRage => u.CurrentRage
  | .CurrentFocus => u.CurrentFocus
  | .CurrentEnergy => u.CurrentEnergy
  | _ => 0

/-- The unit's value of the resource read by an integer-typed `Current*` value; for
runic power the value truncated to an integer, toward zero: rounded down when
it is not negative and up when it is. -/
def ResourceValue.intOf (kind : ResourceValue) (u : Unit) : Int :=
  match kind with
  | .CurrentComboPoints => u.ComboPoints
  | .CurrentRunicPower =>
    if 0 ≤ u.CurrentRunicPower then ⌊u.CurrentRunicPower⌋ else ⌈u.CurrentRunicPower⌉
  | _ => 0

/-- Whether the integer value of the resource can be returned as an `int32`: combo
points are counted in an `int32` to begin with, truncated runic power has to
lie between `-2^31` and `2^31 - 1`. -/
def ResourceValue.fitsInt32 (kind : ResourceValue) (u : Unit) : Prop :=
  match kind with
  | .CurrentRunicPower => -2147483648 ≤ kind.intOf u ∧ kind.intOf u ≤ 2147483647
  | _ => True

/-- A unit with no resource bar at all, labelled `Dummy`. -/
def exampleUnit : Unit :=
  { Label := "Dummy", healthBar := false, manaBar := false, rageBar := false,
    focusBar := false, energyBar := false, runicPowerBar := false,
    currentHealth := 0, maxHealth := 0, currentMana := 0, maxMana := 0,
    currentRage := 0, currentFocus := 0, currentEnergy := 0, comboPoints := 0,
    currentRunicPower := 0, maxRunicPower := 0 }

/-- A rotation whose source-unit resolver finds no unit. -/
def exampleRotation : APLRotation :=
  { unit := 0, sourceUnits := fun _ => ⟨none⟩, uuidWarnings := [] }

/-- A unit with 80 energy and an energy bar only, labelled `Rogue`. -/
def exampleEnergyUnit : Unit :=
  { exampleUnit with Label := "Rogue", energyBar := true, currentEnergy := 80 }

/-- A unit with a runic power bar that holds 3000000000 runic power. -/
def exampleRunicUnit : Unit :=
  { exampleUnit with Label := "Knight", runicPowerBar := true, currentRunicPower := 3000000000 }

/-- A simulation in which every unit is `exampleRunicUnit`. -/
def exampleRunicSimulation : Simulation :=
  { CurrentTime := 0, units := fun _ => exampleRunicUnit }

/-- A rotation whose source-unit resolver always yields unit 0. -/
def exampleSelfRotation : APLRotation :=
  { unit := 0, sourceUnits := fun _ => ⟨some 0⟩, uuidWarnings := [] }

end core

namespace core

/-- One second of `time.Duration`, in nanoseconds (`time.Second`). -/
def Second : Int := 1000000000

/-- Modelled from the spec: `Unit.ApplyCastSpeed` is not among the source files modelled here; a
duration scaled by the unit's cast speed, converted back to whole nanoseconds. -/
def ApplyCastSpeed (castSpeed : ℚ) (d : Int) : Int := int64OfFloat ((d : ℚ) * castSpeed)

/-- Declared cadence of a periodic effect (`core.DotConfig`). -/
structure DotConfig where
  NumberOfTicks : Nat
  TickLength : Int
  AffectedByCastSpeed : Bool
  deriving DecidableEq, Repr

/-- Modelled from the spec: the interval between two ticks of a periodic effect (§4.5):
the declared `TickLength`, changed by the cast speed only for an effect that
declares `AffectedByCastSpeed`. -/
def DotConfig.tickPeriod (cfg : DotConfig) (castSpeed : ℚ) : Int :=
  if cfg.AffectedByCastSpeed then ApplyCastSpeed castSpeed cfg.TickLength else cfg.TickLength

end core

namespace monk

/-- Monk stances; only `WiseSerpent` is named by the code modelled here. -/
inductive Stance
  | SturdyOx
  | WiseSerpent
  | FierceTiger
  deriving DecidableEq, Repr

namespace CracklingJadeLightning

/-- Bodies of the callbacks that this spell puts on the pending-action queue. -/
inductive Action
  /-- One tick of the periodic effect, scheduled by `dot.Apply`. -/
  | dotTick
  /-- The follow-up of lines 86-91, whose body is `dot.Deactivate(sim)`. -/
  | dotDeactivate
  deriving DecidableEq, Repr

/-- A scheduled callback (`core.PendingAction`). -/
structure PendingAction where
  NextActionAt : Int
  OnAction : Action
  deriving DecidableEq, Repr

/-- What the rest of the simulation may change between two instants: the stance,
the two pools the spell can be paid from, and the attack power. -/
structure Stats where
  stance : Stance
  currentMana : ℚ
  currentEnergy : ℚ
  attackPower : ℚ

/-- State of the periodic effect (`core.Dot`). -/
structure Dot where
  active : Bool
  tickCount : Nat
  expiresAt : Int
  deriving DecidableEq, Repr

/-- The monk and the simulation, as far as the spell reads or writes them.
`costModifiers` stands for `spell.ApplyCostModifiers` and `rolls` for the random
stream behind `sim.Proc`; neither is among the source files modelled here, both
are parameters. `gcdRequests` is the record of the ready times passed to
`ExtendGCDUntil`, `periodicDamage` that of the damage calculations. -/
structure State where
  CurrentTime : Int
  stats : Stats
  BaseMana : ℚ
  ClassSpellScaling : ℚ
  castSpeed : ℚ
  chi : Int
  maxChi : Int
  costModifiers : ℚ → ℚ
  rolls : Nat → Bool
  rollCount : Nat
  gcdRequests : List Int
  meleeSwingEnabled : Bool
  meleeSwingAt : Int
  gcdReadyAt : Int
  ChannelClipDelay : Int
  ReactionTime : Int
  dot : Dot
  pendingActions : List PendingAction
  periodicDamage : List (Int × ℚ)

/-- Cadence declared at lines 68-70: six ticks, one second, not affected by cast speed. -/
def dotConfig : core.DotConfig :=
  { NumberOfTicks := 6, TickLength := core.Second, AffectedByCastSpeed := false }

/-- Line 24: `avgScaling := monk.ClassSpellScaling * 0.1800000072`. -/
def avgScaling (s : State) : ℚ := s.ClassSpellScaling * 0.1800000072

/-- Stance test `monk.StanceMatches` (not among the source files modelled here): the monk is in the
given stance. -/
def StanceMatches (s : State) (other : Stance) : Bool := decide (s.stats.stance = other)

/-- Read of the mana pool (`monk.CurrentMana`). -/
def CurrentMana (s : State) : ℚ := s.stats.currentMana

/-- Read of the energy pool (`monk.CurrentEnergy`). -/
def CurrentEnergy (s : State) : ℚ := s.stats.currentEnergy

/-- Read of the attack power used by the spell (`spell.MeleeAttackPower`). -/
def MeleeAttackPower (s : State) : ℚ := s.stats.attackPower

/-- Cost after modifiers (`spell.ApplyCostModifiers`). -/
def ApplyCostModifiers (s : State) (cost : ℚ) : ℚ := s.costModifiers cost

/-- Modelled from the spec: `SpendMana` is not among the source files modelled here; per §4.2 a spend
is rejected (no-op) when `current < cost` and subtracts the cost otherwise. -/
def SpendMana (s : State) (cost : ℚ) : State :=
  if s.stats.currentMana < cost then s
  else { s with stats := { s.stats with currentMana := s.stats.currentMana - cost } }

/-- Modelled from the spec: `SpendEnergy` is not among the source files modelled here; per §4.2 a spend
is rejected (no-op) when `current < cost` and subtracts the cost otherwise. -/
def SpendEnergy (s : State) (cost : ℚ) : State :=
  if s.stats.currentEnergy < cost then s
  else { s with stats := { s.stats with currentEnergy := s.stats.currentEnergy - cost } }

/-- Modelled from the spec: `AddChi` is not among the source files modelled here; per §4.2 a gain is
clamped to the maximum of the pool. -/
def AddChi (s : State) (amount : Int) : State :=
  { s with chi := min (s.chi + amount) s.maxChi }

/-- Modelled from the spec: `sim.Proc` is not among the source files modelled here; per §4.5 the outcome
is drawn from a named random stream, here the next element of `rolls`. -/
def Proc (s : State) : Bool × State :=
  (s.rolls s.rollCount, { s with rollCount := s.rollCount + 1 })

/-- Damage resolution `CalcAndDealPeriodicDamage` (not among the source files modelled here), kept as
the record of when it was called and with which base damage. -/
def CalcAndDealPeriodicDamage (s : State) (baseDamage : ℚ) : State :=
  { s with periodicDamage := s.periodicDamage ++ [(s.CurrentTime, baseDamage)] }

/-- Modelled from the spec: `AutoAttacks.EnableMeleeSwing` is not among the source files modelled here;
per §4.4 it resumes the passive melee swings that were paused for the channel. -/
def EnableMeleeSwing (s : State) : State :=
  { s with meleeSwingEnabled := true }

/-- Modelled from the spec: `AutoAttacks.StopMeleeUntil` is not among the source files modelled here;
per §4.4 it pauses the passive melee swings until the given time. -/
def StopMeleeUntil (s : State) (readyAt : Int) : State :=
  { s with meleeSwingEnabled := false, meleeSwingAt := readyAt }

/-- Modelled from the spec: `monk.ExtendGCDUntil` is not among the source files modelled here; per
§4.4 the global cooldown is one shared lock with a ready time, and extending it
until a given time keeps the unit locked at least until then: the ready time
becomes the given time unless it was later already. The call is recorded with
the time it was given. -/
def ExtendGCDUntil (s : State) (readyTime : Int) : State :=
  { s with gcdReadyAt := max s.gcdReadyAt readyTime,
           gcdRequests := s.gcdRequests ++ [readyTime] }

/-- Modelled from the spec: `sim.AddPendingAction` is not among the source files modelled here; per §4.1
the action joins the queue behind the ones already scheduled. -/
def AddPendingAction (s : State) (pa : PendingAction) : State :=
  { s with pendingActions := s.pendingActions ++ [pa] }

/-- Modelled from the spec: `dot.Deactivate` is not among the source files modelled here; per §3 and §4.3
an explicit deactivation ends the effect and with it the recurring tick action;
deactivating an inactive effect does nothing. -/
def DotDeactivate (s : State) : State :=
  if s.dot.active then
    { s with dot := { s.dot with active := false },
             pendingActions := s.pendingActions.filter fun pa => pa.OnAction ≠ Action.dotTick }
  else s

/-- The `k` tick actions at `start + period`, `start + 2 * period`, ... in firing order. -/
def tickActions (start period : Int) : Nat → List PendingAction
  | 0 => []
  | k + 1 => tickActions start period k ++ [⟨start + ((k : Int) + 1) * period, Action.dotTick⟩]

/-- Modelled from the spec: `dot.Apply` is not among the source files modelled here; per §4.5 it schedules
`NumberOfTicks` evenly spaced tick actions, replacing those of a previous
application. -/
def DotApply (s : State) : State :=
  let period := dotConfig.tickPeriod s.castSpeed
  { s with
    dot := { active := true, tickCount := 0,
             expiresAt := s.CurrentTime + (dotConfig.NumberOfTicks : Int) * period },
    pendingActions :=
      (s.pendingActions.filter fun pa => pa.OnAction ≠ Action.dotTick) ++
        tickActions s.CurrentTime period dotConfig.NumberOfTicks }

/-- Lines 26-43: the affordability test of one tick, with the closure that pays. -/
def canTick (s : State) : Bool × Option (State → State) :=
  let isWiseSerpent := StanceMatches s Stance.WiseSerpent
  let currentResource := if isWiseSerpent then CurrentMana s else CurrentEnergy s
  let baseCost := if isWiseSerpent then 0.0157 * s.BaseMana else 20.0
  let cost := ApplyCostModifiers s baseCost
  if currentResource ≥ cost then
    (true, some fun s =>
      if isWiseSerpent then SpendMana s cost
      else SpendEnergy s cost)
  else
    (false, none)

/-- Lines 72-93: the tick callback of the periodic effect. -/
def OnTick (s : State) : State :=
  match canTick s with
  | (true, some spendCost) =>
    let s := spendCost s
    let baseDamage := avgScaling s + MeleeAttackPower s * 0.386
    let s := CalcAndDealPeriodicDamage s baseDamage
    let (proc, s) := Proc s
    if proc then AddChi s 1 else s
  | _ =>
    let s := EnableMeleeSwing s
    let s := ExtendGCDUntil s (s.CurrentTime + s.ChannelClipDelay)
    AddPendingAction s { NextActionAt := s.CurrentTime, OnAction := Action.dotDeactivate }

/-- Lines 100-112: the cast; `landed` is the outcome of the hit check. -/
def ApplyEffects (s : State) (landed : Bool) : State :=
  if landed then
    let s := DotApply s
    let expiresAt := s.dot.expiresAt
    let s := StopMeleeUntil s expiresAt
    ExtendGCDUntil s (expiresAt + s.ReactionTime)
  else s

/-- Modelled from the spec: the periodic effect engine is not among the source files modelled here; per
§4.5 and §8 each tick action invokes the callback, and the effect retires by
itself once `NumberOfTicks` ticks have fired. -/
def periodicTick (s : State) : State :=
  if s.dot.active then
    let s := OnTick s
    let s := { s with dot := { s.dot with tickCount := s.dot.tickCount + 1 } }
    if s.dot.tickCount ≥ dotConfig.NumberOfTicks then
      { s with dot := { s.dot with active := false } }
    else s
  else s

/-- Body of a scheduled callback. -/
def Action.run : Action → State → State
  | .dotTick, s => periodicTick s
  | .dotDeactivate, s => DotDeactivate s

/-- Modelled from the spec: the pending-action queue is not among the source files modelled here; per §3
the next action is the one with the least fire time, the earliest inserted
among equals. Returns it with the rest of the queue. -/
def popNext : List PendingAction → Option (PendingAction × List PendingAction)
  | [] => none
  | pa :: rest =>
    match popNext rest with
    | none => some (pa, [])
    | some (pb, rest') =>
      if pa.NextActionAt ≤ pb.NextActionAt then some (pa, rest) else some (pb, pa :: rest')

/-- Modelled from the spec: the instant at which a popped action runs (§4.1): the clock is at
its fire time; `world` is whatever the rest of the simulation did to the monk's
stats since the previous instant. -/
def arrived (world : Int → Int → Stats → Stats) (s : State) (pa : PendingAction)
    (rest : List PendingAction) : State :=
  { s with CurrentTime := pa.NextActionAt, pendingActions := rest,
           stats := world s.CurrentTime pa.NextActionAt s.stats }

/-- Modelled from the spec: first half of `Advance` (§4.1): the next action leaves the queue
and the clock moves to its fire time. -/
def arrive (world : Int → Int → Stats → Stats) (s : State) : Option (Action × State) :=
  match popNext s.pendingActions with
  | none => none
  | some (pa, rest) => some (pa.OnAction, arrived world s pa rest)

/-- Modelled from the spec: `Advance` (§4.1) pops and executes the next due action; with an
empty queue nothing happens. -/
def Advance (world : Int → Int → Stats → Stats) (s : State) : State :=
  match arrive world s with
  | none => s
  | some (action, s) => action.run s

/-- State after `n` calls of `Advance`. -/
def run (world : Int → Int → Stats → Stats) : Nat → State → State
  | 0, s => s
  | n + 1, s => run world n (Advance world s)

/-- Whether every tick among the next `n` actions finds its cost affordable. -/
def ticksAffordable (world : Int → Int → Stats → Stats) : Nat → State → Bool
  | 0, _ => true
  | n + 1, s =>
    match arrive world s with
    | none => true
    | some (action, s') =>
      (action ≠ Action.dotTick || (canTick s').1) && ticksAffordable world n (action.run s')

/-- The tick actions number `k + 1` to `k + n` of an effect applied at `start`, one
second apart. -/
def tickQueue (start : Int) (k n : Nat) : List PendingAction :=
  (List.range' k n).map fun (i : Nat) => ⟨start + ((i : Int) + 1) * core.Second, Action.dotTick⟩

/-- The damage records of ticks number `k + 1` to `k + n` of an effect applied at
`start`, one second apart, each with the same base damage. -/
def tickRecords (start : Int) (baseDamage : ℚ) (k n : Nat) : List (Int × ℚ) :=
  (List.range' k n).map fun (i : Nat) => (start + ((i : Int) + 1) * core.Second, baseDamage)

/-- A monk out of Wise Serpent stance with 120 energy, unmodified costs, not channelling. -/
def exampleCaster : State :=
  { CurrentTime := 0,
    stats := { stance := Stance.FierceTiger, currentMana := 0, currentEnergy := 120,
               attackPower := 1000 },
    BaseMana := 0, ClassSpellScaling := 1000, castSpeed := 1, chi := 0, maxChi := 4,
    costModifiers := fun c => c, rolls := fun _ => false, rollCount := 0, gcdRequests := [],
    meleeSwingEnabled := true, meleeSwingAt := 0, gcdReadyAt := 0,
    ChannelClipDelay := 0, ReactionTime := 0,
    dot := { active := false, tickCount := 0, expiresAt := 0 },
    pendingActions := [], periodicDamage := [] }

/-- A monk out of Wise Serpent stance with 15 energy, unmodified costs, channelling. -/
def exampleState : State :=
  { CurrentTime := 0,
    stats := { stance := Stance.FierceTiger, currentMana := 0, currentEnergy := 15,
               attackPower := 1000 },
    BaseMana := 0, ClassSpellScaling := 1000, castSpeed := 1, chi := 0, maxChi := 4,
    costModifiers := fun c => c, rolls := fun _ => true, rollCount := 0, gcdRequests := [],
    meleeSwingEnabled := false, meleeSwingAt := 0, gcdReadyAt := 0,
    ChannelClipDelay := 0, ReactionTime := 0,
    dot := { active := true, tickCount := 0, expiresAt := 0 },
    pendingActions := [], periodicDamage := [] }

end CracklingJadeLightning

end monk

namespace monk

namespace Ascension

/-- The monk, as far as the Ascension aura reads or writes it. -/
structure State where
  energyRegenMultiplier : ℚ
  maxComboPoints : Int
  manaBar : Bool
  mana : ℚ

/-- Modelled from the spec: `MultiplyEnergyRegenSpeed` is not among the source files modelled here; per §4.2
the mutable regeneration rate is multiplied by the given factor. -/
def MultiplyEnergyRegenSpeed (s : State) (multiplier : ℚ) : State :=
  { s with energyRegenMultiplier := s.energyRegenMultiplier * multiplier }

/-- Setter `SetMaxComboPoints` (not among the source files modelled here). -/
def SetMaxComboPoints (s : State) (maxComboPoints : Int) : State :=
  { s with maxComboPoints := maxComboPoints }

/-- Capability query `HasManaBar` (§6). -/
def HasManaBar (s : State) : Bool := s.manaBar

/-- Modelled from the spec: `MultiplyStat(stats.Mana, m)` is not among the source files modelled here; the
Mana stat is multiplied by the given factor. -/
def MultiplyStatMana (s : State) (multiplier : ℚ) : State :=
  { s with mana := s.mana * multiplier }

/-- Lines 292-299: `OnGain` of the Ascension aura. -/
def OnGain (s : State) : State :=
  let s := MultiplyEnergyRegenSpeed s 1.15
  let s := SetMaxComboPoints s 5
  if HasManaBar s then MultiplyStatMana s 1.15 else s

/-- Lines 300-307: `OnExpire` of the Ascension aura. -/
def OnExpire (s : State) : State :=
  let s := MultiplyEnergyRegenSpeed s (1.0 / 1.15)
  let s := SetMaxComboPoints s 4
  if HasManaBar s then MultiplyStatMana s (1.0 / 1.15) else s

/-- A monk with a mana bar. -/
def exampleState : State :=
  { energyRegenMultiplier := 1, maxComboPoints := 4, manaBar := true, mana := 300000 }

end Ascension

namespace ChiWave

/-- The two sub-spells registered at lines 71-127. -/
inductive SubSpell
  | chiWaveDamageSpell
  | chiWaveHealingSpell
  deriving DecidableEq, Repr

/-- The other sub-spell. -/
def SubSpell.other : SubSpell → SubSpell
  | .chiWaveDamageSpell => .chiWaveHealingSpell
  | .chiWaveHealingSpell => .chiWaveDamageSpell

/-- A computed damage or healing result waiting to land (`core.SpellResult`); the
target is the `*core.Unit` the sub-spell was cast on, which may be nil. -/
structure SpellResult where
  spell : SubSpell
  target : Option core.UnitId
  amount : ℚ
  deriving DecidableEq, Repr

/-- A scheduled callback: the closure passed to `WaitTravelTime`, which captures
the result to deal. -/
structure PendingAction where
  NextActionAt : Int
  result : SpellResult
  deriving DecidableEq, Repr

/-- What the talent reads from the environment; none of it is in the sources at
hand, all of it is a parameter: who is an opponent, the next target after a
unit, the current target of a unit (the pointer field `CurrentTarget`, nil for
a unit that targets nothing), and the travel time of a sub-spell to the unit
it was cast on. -/
structure Env where
  monkUnit : core.UnitId
  IsOpponent : core.UnitId → Bool
  NextTargetUnit : core.UnitId → core.UnitId
  CurrentTarget : core.UnitId → Option core.UnitId
  travelTime : SubSpell → Option core.UnitId → Int

/-- The closure variables of `registerChiWave` and the simulation around them.
`nextTarget` is the pointer declared at line 66, nil until a cast sets it;
`panicked` is set when the run has ended in a nil pointer dereference. -/
structure State where
  CurrentTime : Int
  ClassSpellScaling : ℚ
  attackPower : ℚ
  tickIndex : Int
  nextTarget : Option core.UnitId
  pendingActions : List PendingAction
  resolved : List SpellResult
  panicked : Bool

/-- Line 65: `avgScaling := monk.ClassSpellScaling * 0.4499999881`. -/
def avgScaling (s : State) : ℚ := s.ClassSpellScaling * 0.4499999881

/-- Modelled from the spec: `spell.WaitTravelTime` is not among the source files modelled here; the callback
is scheduled as a pending action one travel time ahead (§4.1, §9). -/
def WaitTravelTime (env : Env) (s : State) (result : SpellResult) : State :=
  { s with pendingActions := s.pendingActions ++
      [{ NextActionAt := s.CurrentTime + env.travelTime result.spell result.target,
         result := result }] }

/-- Lines 83-98 and 113-126 up to the callback: the sub-spell computes its result
from `avgScaling + MeleeAttackPower * 0.45` and waits for the travel time. -/
def SubSpell.ApplyEffects (spell : SubSpell) (env : Env) (s : State)
    (target : Option core.UnitId) : State :=
  let base := avgScaling s + s.attackPower * 0.45
  WaitTravelTime env s { spell := spell, target := target, amount := base }

/-- Modelled from the spec: `Spell.Cast` is not among the source files modelled here; the sub-spells are
passive, instant and free of cost and cooldown, so per §4.4 a cast goes straight
to its resolution function. A nil target is handed on as it is. -/
def SubSpell.Cast (spell : SubSpell) (env : Env) (s : State) (target : Option core.UnitId) :
    State :=
  spell.ApplyEffects env s target

/-- Lines 88-97 and 118-125: the callback run when a result lands. At line 94 the
expression `nextTarget.Env` dereferences `nextTarget`: when the pointer is nil
the run panics there, after the result was dealt and the counter was moved. -/
def onLand (env : Env) (s : State) (result : SpellResult) : State :=
  let s := { s with resolved := s.resolved ++ [result] }
  match result.spell with
  | .chiWaveDamageSpell =>
    if s.tickIndex < 7 then
      let s := { s with tickIndex := s.tickIndex + 1 }
      match s.nextTarget with
      | none => { s with panicked := true }
      | some unit =>
        let s := { s with nextTarget := some (env.NextTargetUnit unit) }
        SubSpell.chiWaveHealingSpell.Cast env s (some env.monkUnit)
    else s
  | .chiWaveHealingSpell =>
    if s.tickIndex < 7 then
      let s := { s with tickIndex := s.tickIndex + 1 }
      SubSpell.chiWaveDamageSpell.Cast env s s.nextTarget
    else s

/-- Lines 148-156: the cast of Chi Wave itself, on a unit. -/
def ApplyEffects (env : Env) (s : State) (target : core.UnitId) : State :=
  let s := { s with tickIndex := 0 }
  if env.IsOpponent target then
    let s := { s with nextTarget := some (env.NextTargetUnit target) }
    SubSpell.chiWaveDamageSpell.Cast env s (some target)
  else
    let s := { s with nextTarget := env.CurrentTarget target }
    SubSpell.chiWaveHealingSpell.Cast env s (some target)

/-- Modelled from the spec: the pending-action queue is not among the source files modelled here; per §3
the next action is the one with the least fire time, the earliest inserted
among equals. Returns it with the rest of the queue. -/
def popNext : List PendingAction → Option (PendingAction × List PendingAction)
  | [] => none
  | pa :: rest =>
    match popNext rest with
    | none => some (pa, [])
    | some (pb, rest') =>
      if pa.NextActionAt ≤ pb.NextActionAt then some (pa, rest) else some (pb, pa :: rest')

/-- Modelled from the spec: `Advance` (§4.1) pops the next due action, moves the clock to its
fire time and executes it; with an empty queue nothing happens. A run that has
panicked executes nothing any more. -/
def Advance (env : Env) (s : State) : State :=
  if s.panicked then s
  else
    match popNext s.pendingActions with
    | none => s
    | some (pa, rest) =>
      onLand env { s with CurrentTime := pa.NextActionAt, pendingActions := rest } pa.result

/-- State after `n` calls of `Advance`. -/
def run (env : Env) : Nat → State → State
  | 0, s => s
  | n + 1, s => run env n (Advance env s)

/-- The sub-spells of `n` resolutions in a row, starting with `first` and
alternating. -/
def alternating (first : SubSpell) : Nat → List SubSpell
  | 0 => []
  | n + 1 => first :: alternating first.other n

/-- An environment with the monk as unit 0 facing the opponents 1 and 2, every
unit targeting opponent 1. -/
def exampleEnv : Env :=
  { monkUnit := 0, IsOpponent := fun u => decide (u ≠ 0),
    NextTargetUnit := fun u => if u = 1 then 2 else 1,
    CurrentTarget := fun _ => some 1, travelTime := fun _ _ => 500000000 }

/-- The same environment with the monk, unit 0, targeting nothing. -/
def exampleIdleEnv : Env :=
  { exampleEnv with CurrentTarget := fun u => if u = 0 then none else some 0 }

/-- A monk with nothing in flight, before any cast of Chi Wave. -/
def exampleState : State :=
  { CurrentTime := 0, ClassSpellScaling := 1000, attackPower := 1000, tickIndex := 0,
    nextTarget := none, pendingActions := [], resolved := [], panicked := false }

end ChiWave

end monk

namespace monk

namespace ChiBrew

/-- Bodies of the closures stored in `PendingAction.OnAction` by `registerChiBrew`. -/
inductive OnAction
  /-- Lines 343-346: `aura.Activate(sim); aura.AddStack(sim)`. -/
  | recharge
  /-- Lines 353-356: `monk.chiBrewRecharge = nextRecharge; oldAction(sim)`. -/
  | chained (nextRecharge : Nat) (oldAction : OnAction)
  deriving DecidableEq, Repr

/-- A `core.PendingAction` object: its fire time, its (mutable) callback and the
two flags set when it is popped for execution and when it is cancelled. -/
structure PendingAction where
  NextActionAt : Int
  OnAction : OnAction
  consumed : Bool
  cancelled : Bool
  deriving DecidableEq, Repr

/-- The monk, the Chi Brew aura and the simulation around them. A `*PendingAction`
is an index into `heap`; `pendingActions` is the queue of the simulation, in
insertion order; `panicked` records a nil pointer dereference. -/
structure State where
  CurrentTime : Int
  auraActive : Bool
  auraStacks : Int
  chiBrewRecharge : Option Nat
  heap : List PendingAction
  pendingActions : List Nat
  chi : Int
  maxChi : Int
  brewStacks : Int
  panicked : Bool
  deriving DecidableEq, Repr

/-- Line 324: `MaxStacks: 2`. -/
def MaxStacks : Int := 2

/-- Line 342: `time.Second*45`. -/
def rechargeDuration : Int := core.Second * 45

/-- A placeholder for a pointer that does not address an object. -/
def nullAction : PendingAction :=
  { NextActionAt := 0, OnAction := OnAction.recharge, consumed := true, cancelled := true }

/-- The object behind a pointer. -/
def deref (s : State) (p : Nat) : PendingAction := s.heap.getD p nullAction

/-- Modelled from the spec: `PendingAction.IsConsumed` is not among the source files modelled here; per §3 an
action is consumed exactly once, when it fires. Called through a nil pointer it
panics. -/
def IsConsumed (s : State) : Option Nat → Bool × State
  | none => (false, { s with panicked := true })
  | some p => ((deref s p).consumed, s)

/-- Modelled from the spec: `PendingAction.Cancel` is not among the source files modelled here; per §3 and §5
a cancelled action never fires, and cancelling a fired one does nothing. -/
def Cancel (s : State) (p : Nat) : State :=
  if (deref s p).consumed then s
  else
    let pa := deref s p
    { s with heap := s.heap.set p { pa with cancelled := true } }

/-- Modelled from the spec: `sim.AddPendingAction` is not among the source files modelled here; per §4.1 the
action joins the queue behind the ones already scheduled. -/
def AddPendingAction (s : State) (p : Nat) : State :=
  { s with pendingActions := s.pendingActions ++ [p] }

/-- Lines 335-367: `OnStacksChange` of the Chi Brew aura. -/
def OnStacksChange (s : State) (oldStacks newStacks : Int) : State :=
  if !s.auraActive then s
  else if newStacks < oldStacks then
    let action : PendingAction :=
      { NextActionAt := s.CurrentTime + rechargeDuration, OnAction := OnAction.recharge,
        consumed := false, cancelled := false }
    let nextRecharge := s.heap.length
    let s : State := { s with heap := s.heap ++ [action] }
    let s : State :=
      match s.chiBrewRecharge with
      | some p =>
        let chiBrewRecharge := deref s p
        let oldAction := chiBrewRecharge.OnAction
        let chiBrewRecharge :=
          { chiBrewRecharge with OnAction := OnAction.chained nextRecharge oldAction }
        { s with heap := s.heap.set p chiBrewRecharge }
      | none => { s with chiBrewRecharge := some nextRecharge }
    AddPendingAction s nextRecharge
  else if newStacks > oldStacks then
    if newStacks = 2 then { s with chiBrewRecharge := none }
    else
      let (consumed, s) := IsConsumed s s.chiBrewRecharge
      if consumed then { s with chiBrewRecharge := none } else s
  else s

/-- Modelled from the spec: `Aura.Activate` is not among the source files modelled here; per §4.3 it takes an
inactive aura to active and is a no-op on an active one (this aura has no
`OnGain`). -/
def Activate (s : State) : State := { s with auraActive := true }

/-- Modelled from the spec: `Aura.SetStacks` is not among the source files modelled here; per §4.3 and §8 the
count is clamped to `[0, MaxStacks]` and `OnStacksChange` fires once per net
change. -/
def SetStacks (s : State) (newStacks : Int) : State :=
  let oldStacks := s.auraStacks
  let newStacks := max 0 (min newStacks MaxStacks)
  if oldStacks = newStacks then s
  else OnStacksChange { s with auraStacks := newStacks } oldStacks newStacks

/-- Modelled from the spec: `Aura.AddStack` (§4.3), one more stack. -/
def AddStack (s : State) : State := SetStacks s (s.auraStacks + 1)

/-- Modelled from the spec: `Aura.RemoveStack` (§4.3), one stack fewer. -/
def RemoveStack (s : State) : State := SetStacks s (s.auraStacks - 1)

/-- Modelled from the spec: `Aura.GetStacks` (§3), the current count. -/
def GetStacks (s : State) : Int := s.auraStacks

/-- Lines 326-333: `OnReset` of the Chi Brew aura. -/
def OnReset (s : State) : State :=
  let s : State :=
    match s.chiBrewRecharge with
    | some p => Cancel s p
    | none => s
  let s := Activate s
  SetStacks s 2

/-- Modelled from the spec: `AddChi` is not among the source files modelled here; per §4.2 a gain is clamped
to the maximum of the pool. -/
def AddChi (s : State) (amount : Int) : State :=
  { s with chi := min (s.chi + amount) s.maxChi }

/-- Brew stacks granted by `AddBrewStacks` (not among the source files modelled here), kept as a
counter. -/
def AddBrewStacks (s : State) (amount : Int) : State :=
  { s with brewStacks := s.brewStacks + amount }

/-- Lines 381-383: `ExtraCastCondition` of the Chi Brew spell. -/
def ExtraCastCondition (s : State) : Bool := decide (GetStacks s ≥ 1)

/-- Lines 385-393: `ApplyEffects` of the Chi Brew spell. -/
def ApplyEffects (s : State) : State :=
  let s := AddChi s 2
  let s := AddBrewStacks s 2
  RemoveStack s

/-- Modelled from the spec: a cast at time `t` (§4.4): the spell has no cost and no cooldown
of its own, so it is committed when its cast condition holds and refused
otherwise. -/
def castAt (s : State) (t : Int) : State :=
  let s := { s with CurrentTime := t }
  if ExtraCastCondition s then ApplyEffects s else s

/-- Execution of a stored callback. -/
def OnAction.run : OnAction → State → State
  | .recharge, s => AddStack (Activate s)
  | .chained nextRecharge oldAction, s =>
    oldAction.run { s with chiBrewRecharge := some nextRecharge }

/-- Modelled from the spec: the pending-action queue is not among the source files modelled here; per §3
the next action is the one with the least fire time, the earliest inserted
among equals. Returns its pointer with the rest of the queue. -/
def popNext (s : State) : List Nat → Option (Nat × List Nat)
  | [] => none
  | p :: rest =>
    match popNext s rest with
    | none => some (p, [])
    | some (q, rest') =>
      if (deref s p).NextActionAt ≤ (deref s q).NextActionAt then some (p, rest)
      else some (q, p :: rest')

/-- Modelled from the spec: `Advance` (§4.1) pops the next due action; a cancelled one is
dropped, any other one is marked consumed, the clock moves to its fire time and
its callback runs. With an empty queue nothing happens. -/
def Advance (s : State) : State :=
  match popNext s s.pendingActions with
  | none => s
  | some (p, rest) =>
    let pa := deref s p
    if pa.cancelled then { s with pendingActions := rest }
    else
      let s := { s with CurrentTime := pa.NextActionAt, pendingActions := rest,
                        heap := s.heap.set p { pa with consumed := true } }
      pa.OnAction.run s

/-- A state at the start of an iteration, before `OnReset` runs: the queue of the
new simulation is empty, the aura is inert, and `chiBrewRecharge` is nil or
still holds an action object of the previous iteration. -/
def Fresh (s : State) : Prop :=
  s.pendingActions = [] ∧ s.auraActive = false ∧ s.auraStacks = 0 ∧ s.panicked = false

/-- A cast of Chi Brew can happen at time `t`: time does not run backwards and no
queued action is due before `t`. -/
def CanCastAt (s : State) (t : Int) : Prop :=
  s.CurrentTime ≤ t ∧ ∀ p ∈ s.pendingActions, t ≤ (deref s p).NextActionAt

/-- States reached after `OnReset` through casts of Chi Brew and pending actions
firing. -/
inductive Reachable : State → Prop
  | reset (s : State) : Fresh s → Reachable (OnReset s)
  | cast (s : State) (t : Int) : Reachable s → CanCastAt s t → Reachable (castAt s t)
  | fire (s : State) : Reachable s → Reachable (Advance s)

/-- Whether the action behind a pointer is still waiting to fire. -/
def Outstanding (s : State) (p : Nat) : Prop :=
  p ∈ s.pendingActions ∧ (deref s p).consumed = false ∧ (deref s p).cancelled = false

/-- Both charges are available and nothing is recharging. -/
def Full (s : State) : Prop :=
  s.auraActive = true ∧ s.panicked = false ∧ s.auraStacks = 2 ∧ s.chiBrewRecharge = none ∧
    s.pendingActions = []

/-- One charge is available and the action `a` recharges the other one. -/
def OneCharging (s : State) (a : Nat) : Prop :=
  s.auraActive = true ∧ s.panicked = false ∧ s.auraStacks = 1 ∧ s.chiBrewRecharge = some a ∧
    s.pendingActions = [a] ∧ a < s.heap.length ∧
    (deref s a).OnAction = OnAction.recharge ∧
    (deref s a).consumed = false ∧ (deref s a).cancelled = false ∧
    s.CurrentTime ≤ (deref s a).NextActionAt ∧
    (deref s a).NextActionAt ≤ s.CurrentTime + rechargeDuration

/-- No charge is available; the actions `a` and then `b` recharge them, and the
callback of `a` has been chained to hand over to `b`. -/
def TwoCharging (s : State) (a b : Nat) : Prop :=
  s.auraActive = true ∧ s.panicked = false ∧ s.auraStacks = 0 ∧ s.chiBrewRecharge = some a ∧
    s.pendingActions = [a, b] ∧ a < b ∧ b < s.heap.length ∧
    (deref s a).OnAction = OnAction.chained b OnAction.recharge ∧
    (deref s b).OnAction = OnAction.recharge ∧
    (deref s a).consumed = false ∧ (deref s a).cancelled = false ∧
    (deref s b).consumed = false ∧ (deref s b).cancelled = false ∧
    s.CurrentTime ≤ (deref s a).NextActionAt ∧
    (deref s a).NextActionAt ≤ (deref s b).NextActionAt ∧
    (deref s b).NextActionAt ≤ s.CurrentTime + rechargeDuration

/-- A state at the start of the first iteration. -/
def exampleState : State :=
  { CurrentTime := 0, auraActive := false, auraStacks := 0, chiBrewRecharge := none, heap := [],
    pendingActions := [], chi := 0, maxChi := 4, brewStacks := 0, panicked := false }

end ChiBrew

end monk

namespace monk

namespace RushingJadeWind

/-- A computed damage result (`core.SpellResult`): whom it is for, the base damage
it was computed from, and whether the attack landed. -/
structure SpellResult where
  target : core.UnitId
  damage : ℚ
  landed : Bool
  deriving DecidableEq, Repr

/-- What the tick spell does to the simulation, in order: the damage
calculations and the damage deals, each with the index it was made for. -/
inductive Event
  | calcDamage (idx : Int) (target : core.UnitId) (baseDamage : ℚ)
  | dealDamage (idx : Int) (result : SpellResult)
  deriving DecidableEq, Repr

/-- What the talent reads from its surroundings; none of it is among the source
files modelled here, all of it is a parameter: the target count captured at
registration (line 426), the target unit behind each index, and for each index
the strike damage rolled by `CalculateMonkStrikeDamage` and the outcome rolled
by `OutcomeMeleeSpecialHitAndCrit` during the tick at hand. -/
structure Env where
  numTargets : Int
  GetTargetUnit : Int → core.UnitId
  strikeDamage : Int → ℚ
  outcome : Int → Bool

/-- A Go slice of result pointers: its length and its cells, nil when `none`. -/
structure Slice where
  len : Int
  cells : Int → Option SpellResult

/-- The monk and the simulation, as far as the talent reads or writes them;
`panicked` records a run-time panic (bad slice length or index, nil result). -/
structure State where
  CurrentTime : Int
  castSpeed : ℚ
  events : List Event
  chi : Int
  maxChi : Int
  chiGained : List Int
  dotActive : Bool
  dotExpiresAt : Int
  tickTimes : List Int
  cdDuration : Int
  buffDuration : Int
  buffActive : Bool
  panicked : Bool

/-- Go `make([]*core.SpellResult, n)` for `n ≥ 0`: `n` nil cells. -/
def Slice.make (n : Int) : Slice := { len := n, cells := fun _ => none }

/-- Go `results[idx] = result`: an index outside the slice panics. -/
def Slice.store (results : Slice) (s : State) (idx : Int) (result : SpellResult) :
    State × Slice :=
  if 0 ≤ idx ∧ idx < results.len then
    (s, { results with cells := fun i => if i = idx then some result else results.cells i })
  else ({ s with panicked := true }, results)

/-- Go `results[idx]`: an index outside the slice panics. -/
def Slice.load (results : Slice) (s : State) (idx : Int) : Option SpellResult × State :=
  if 0 ≤ idx ∧ idx < results.len then (results.cells idx, s)
  else (none, { s with panicked := true })

/-- Strike damage of one target (`monk.CalculateMonkStrikeDamage`), a parameter. -/
def CalculateMonkStrikeDamage (env : Env) (idx : Int) : ℚ := env.strikeDamage idx

/-- Damage calculation `spell.CalcDamage` (not among the source files modelled here): the
call is recorded and the result carries the rolled outcome. -/
def CalcDamage (env : Env) (s : State) (idx : Int) (target : core.UnitId) (baseDamage : ℚ) :
    SpellResult × State :=
  ({ target := target, damage := baseDamage, landed := env.outcome idx },
   { s with events := s.events ++ [Event.calcDamage idx target baseDamage] })

/-- Damage resolution `spell.DealDamage` (not among the source files modelled here), kept as
the record of the call. -/
def DealDamage (s : State) (idx : Int) (result : SpellResult) : State :=
  { s with events := s.events ++ [Event.dealDamage idx result] }

/-- Lines 443-447: the first loop of the tick spell, entered at `idx`: it runs while
`idx < numTargets`, and a panic ends it. The increment cannot overflow, `idx`
being less than the `int32` value `numTargets`. -/
def calcLoop (env : Env) (idx : Int) (st : State × Slice) : State × Slice :=
  if st.1.panicked then st
  else if h : idx < env.numTargets then
    let currentTarget := env.GetTargetUnit idx
    let baseDamage := CalculateMonkStrikeDamage env idx
    let computed := CalcDamage env st.1 idx currentTarget baseDamage
    calcLoop env (idx + 1) (st.2.store computed.2 idx computed.1)
  else st
termination_by (env.numTargets - idx).toNat
decreasing_by omega

/-- Lines 449-451: the second loop of the tick spell, entered at `idx`: it runs while
`idx < numTargets`; dealing a nil result panics, and a panic ends the loop. -/
def dealLoop (env : Env) (idx : Int) (st : State × Slice) : State × Slice :=
  if st.1.panicked then st
  else if _h : idx < env.numTargets then
    match st.2.load st.1 idx with
    | (some result, s) => dealLoop env (idx + 1) (DealDamage s idx result, st.2)
    | (none, s) => ({ s with panicked := true }, st.2)
  else st
termination_by (env.numTargets - idx).toNat
decreasing_by omega

/-- Lines 440-452: `ApplyEffects` of the tick spell; `target` is the unit the tick
spell was cast on. A negative length panics in `make`. -/
def TickSpell.ApplyEffects (env : Env) (s : State) (_target : core.UnitId) : State :=
  if env.numTargets < 0 then { s with panicked := true }
  else
    let results := Slice.make env.numTargets
    let st := calcLoop env 0 (s, results)
    let st := dealLoop env 0 st
    st.1

/-- Modelled from the spec: `Spell.Cast` is not among the source files modelled here; the tick
spell is passive, instant and free of cost and cooldown, so per §4.4 a cast goes
straight to its resolution function. -/
def TickSpell.Cast (env : Env) (s : State) (target : core.UnitId) : State :=
  TickSpell.ApplyEffects env s target

/-- Lines 502-504: `OnTick` of the periodic effect. -/
def OnTick (env : Env) (s : State) (target : core.UnitId) : State :=
  TickSpell.Cast env s target

/-- Cadence declared at lines 497-499: eight ticks, 750 ms, affected by cast speed. -/
def dotConfig : core.DotConfig :=
  { NumberOfTicks := 8, TickLength := 750000000, AffectedByCastSpeed := true }

/-- Line 455: `baseCooldown := time.Second * 6`. -/
def baseCooldown : Int := core.Second * 6

/-- The fire times `start + period`, ..., `start + k * period`. -/
def tickTimesFrom (start period : Int) : Nat → List Int
  | 0 => []
  | k + 1 => tickTimesFrom start period k ++ [start + ((k : Int) + 1) * period]

/-- Modelled from the spec: `dot.Apply` is not among the source files modelled here; per §4.5 it
schedules `NumberOfTicks` evenly spaced ticks. -/
def DotApply (s : State) : State :=
  let period := dotConfig.tickPeriod s.castSpeed
  { s with dotActive := true,
           dotExpiresAt := s.CurrentTime + (dotConfig.NumberOfTicks : Int) * period,
           tickTimes := tickTimesFrom s.CurrentTime period dotConfig.NumberOfTicks }

/-- Modelled from the spec: `dot.TickOnce` is not among the source files modelled here; per §4.5
one tick invokes the callback of the effect once. -/
def TickOnce (env : Env) (s : State) (target : core.UnitId) : State :=
  OnTick env s target

/-- Modelled from the spec: `dot.RemainingDuration` is not among the source files modelled
here; the time left until the effect retires (§3). -/
def RemainingDuration (s : State) : Int := s.dotExpiresAt - s.CurrentTime

/-- Modelled from the spec: `Aura.Activate` on the buff (§4.3): inactive to active. -/
def BuffActivate (s : State) : State := { s with buffActive := true }

/-- Modelled from the spec: `AddChi` is not among the source files modelled here; per §3 and §4.2
a gain records its amount and the pool is clamped to its maximum. -/
def AddChi (s : State) (amount : Int) : State :=
  { s with chi := min (s.chi + amount) s.maxChi, chiGained := s.chiGained ++ [amount] }

/-- Lines 507-520: `ApplyEffects` of Rushing Jade Wind. A panic in the immediate tick
unwinds the call: nothing after `dot.TickOnce` is executed. -/
def ApplyEffects (env : Env) (s : State) (target : core.UnitId) : State :=
  let s := DotApply s
  let s := TickOnce env s target
  if s.panicked then s
  else
    let remainingDuration := RemainingDuration s
    let s := { s with cdDuration := remainingDuration }
    let s := { s with buffDuration := remainingDuration }
    let s := BuffActivate s
    if env.numTargets ≥ 3 then AddChi s 1 else s

/-- The result computed for target index `i` during a tick. -/
def resultOf (env : Env) (i : Nat) : SpellResult :=
  { target := env.GetTargetUnit i, damage := env.strikeDamage i, landed := env.outcome i }

/-- The damage calculation made for target index `i` during a tick. -/
def calcEvent (env : Env) (i : Nat) : Event :=
  Event.calcDamage i (env.GetTargetUnit i) (env.strikeDamage i)

/-- The deal of the result computed for target index `i` during a tick. -/
def dealEvent (env : Env) (i : Nat) : Event :=
  Event.dealDamage i (resultOf env i)

/-- The number of targets hit: the damage deals among the events whose result landed. -/
def hits : List Event → Nat
  | [] => 0
  | Event.dealDamage _ result :: rest => (if result.landed then 1 else 0) + hits rest
  | Event.calcDamage _ _ _ :: rest => hits rest

/-- Three targets, every attack of the tick misses. -/
def exampleMisses : Env :=
  { numTargets := 3, GetTargetUnit := fun idx => idx.toNat + 1, strikeDamage := fun _ => 1000,
    outcome := fun _ => false }

/-- Two targets, every attack of the tick lands. -/
def examplePair : Env :=
  { numTargets := 2, GetTargetUnit := fun idx => idx.toNat + 1, strikeDamage := fun _ => 1000,
    outcome := fun _ => true }

/-- A monk with no Chi, about to cast. -/
def exampleState : State :=
  { CurrentTime := 0, castSpeed := 1, events := [], chi := 0, maxChi := 4, chiGained := [],
    dotActive := false, dotExpiresAt := 0, tickTimes := [], cdDuration := baseCooldown,
    buffDuration := baseCooldown, buffActive := false, panicked := false }

end RushingJadeWind

namespace ChiBrew

/-- The scheduled recharge actions that have not fired yet: the queued actions
that are neither consumed nor cancelled. -/
def outstanding (s : State) : List Nat :=
  s.pendingActions.filter fun p => !(deref s p).consumed && !(deref s p).cancelled

end ChiBrew

end monk

namespace core

/-- The two outcomes of a constructor on a resolved unit. -/
theorem newValue_capability_cases (rot : APLRotation) (kind : ResourceValue)
    (heap : UnitId → Unit) (config : proto.APLValueSourceUnitConfig) (uuid : proto.UUID)
    (p : UnitId) (h : rot.targetUnit kind config = some p) :
    ((rot.newValue kind heap config uuid).1.isSome = kind.capability (heap p)) ∧
    (kind.capability (heap p) = false →
      rot.newValue kind heap config uuid =
        (none, { rot with
          uuidWarnings := rot.uuidWarnings ++ [kind.diagnostic (heap p) uuid] })) ∧
    (kind.capability (heap p) = true →
      (rot.newValue kind heap config uuid).2 = rot) := by
  cases kind <;>
    simp only [APLRotation.targetUnit, Option.some.injEq] at h <;>
    simp only [APLRotation.newValue, APLRotation.newValueCurrentHealth,
      APLRotation.newValueCurrentHealthPercent, APLRotation.newValueCurrentMana,
      APLRotation.newValueCurrentManaPercent, APLRotation.newValueCurrentRage,
      APLRotation.newValueCurrentFocus, APLRotation.newValueCurrentEnergy,
      APLRotation.newValueCurrentComboPoints, APLRotation.newValueCurrentRunicPower,
      APLRotation.newValueMaxRunicPower, ResourceValue.capability, ResourceValue.diagnostic,
      ResourceValue.severity, ResourceValue.doesNotUse, APLRotation.ValidationMessageByUUID,
      h] <;>
    split <;> simp_all

/-- C1. For a rotation whose validated unit is resolved to `p`, each of the ten resource
value constructors returns a node exactly when the unit has the capability it
checks; without the capability it returns nil and appends exactly one diagnostic
`<unit label> does not use <Resource>` for the UUID, at severity Warning for the
`Current*` values and Error for Max Runic Power; with the capability the
rotation, and so its list of diagnostics, is unchanged. -/
theorem newValue_validates_capability (rot : APLRotation) (kind : ResourceValue)
    (heap : UnitId → Unit) (config : proto.APLValueSourceUnitConfig) (uuid : proto.UUID)
    (p : UnitId) (h : rot.targetUnit kind config = some p) :
    ((rot.newValue kind heap config uuid).1.isSome = kind.capability (heap p)) ∧
    (kind.capability (heap p) = false →
      rot.newValue kind heap config uuid =
        (none, { rot with
          uuidWarnings := rot.uuidWarnings ++ [kind.diagnostic (heap p) uuid] })) ∧
    (kind.capability (heap p) = true →
      (rot.newValue kind heap config uuid).2 = rot) := by
  cases kind <;>
    simp only [APLRotation.targetUnit, Option.some.injEq] at h <;>
    simp only [APLRotation.newValue, APLRotation.newValueCurrentHealth,
      APLRotation.newValueCurrentHealthPercent, APLRotation.newValueCurrentMana,
      APLRotation.newValueCurrentManaPercent, APLRotation.newValueCurrentRage,
      APLRotation.newValueCurrentFocus, APLRotation.newValueCurrentEnergy,
      APLRotation.newValueCurrentComboPoints, APLRotation.newValueCurrentRunicPower,
      APLRotation.newValueMaxRunicPower, ResourceValue.capability, ResourceValue.diagnostic,
      ResourceValue.severity, ResourceValue.doesNotUse, APLRotation.ValidationMessageByUUID,
      h] <;>
    split <;> simp_all

/-- Witness for C1: Max Runic Power on a unit without a runic power bar is refused with
one Error diagnostic. -/
theorem newValue_validates_capability_witness :
    exampleSelfRotation.targetUnit ResourceValue.MaxRunicPower ⟨none⟩ = some 0 ∧
      exampleSelfRotation.newValue ResourceValue.MaxRunicPower (fun _ => exampleUnit) ⟨none⟩
          ⟨"id"⟩ =
        (none, { exampleSelfRotation with
          uuidWarnings := [⟨⟨"id"⟩, proto.LogLevel.Error, "Dummy does not use Runic Power"⟩] }) :=
  ⟨rfl, (newValue_validates_capability exampleSelfRotation ResourceValue.MaxRunicPower
    (fun _ => exampleUnit) ⟨none⟩ ⟨"id"⟩ 0 rfl).2.1 rfl⟩

/-- Counterexample to C2: when the configured source unit resolves to no unit,
`newValueCurrentHealth` returns nil and the rotation holds no message at all
afterwards, so none for the value's UUID. -/
theorem newValueCurrentHealth_nil_without_message :
    (exampleRotation.newValueCurrentHealth (fun _ => exampleUnit) ⟨none⟩ ⟨"id"⟩).1 = none ∧
      (exampleRotation.newValueCurrentHealth (fun _ => exampleUnit) ⟨none⟩
        ⟨"id"⟩).2.uuidWarnings = [] := by
  decide

/-- C2, amended. When the configured source unit resolves to no unit, a resource value
constructor returns nil and leaves the rotation, and so its messages, unchanged:
it emits no message of its own. When the unit it validates against is resolved,
which is always so for the values built on the rotation's own unit, a nil return
comes with exactly one message appended, and that message is for the value's
UUID. -/
theorem newValue_nil_message_or_unresolved (rot : APLRotation) (kind : ResourceValue)
    (heap : UnitId → Unit) (config : proto.APLValueSourceUnitConfig) (uuid : proto.UUID) :
    (rot.targetUnit kind config = none → rot.newValue kind heap config uuid = (none, rot)) ∧
      (∀ p, rot.targetUnit kind config = some p →
        (rot.newValue kind heap config uuid).1 = none →
          (kind.diagnostic (heap p) uuid).Uuid = uuid ∧
            (rot.newValue kind heap config uuid).2.uuidWarnings =
              rot.uuidWarnings ++ [kind.diagnostic (heap p) uuid]) ∧
      (kind ∉ [ResourceValue.CurrentHealth, ResourceValue.CurrentHealthPercent,
          ResourceValue.CurrentMana, ResourceValue.CurrentManaPercent] →
        rot.targetUnit kind config = some rot.unit) := by
  refine ⟨?_, ?_, ?_⟩
  · intro ht
    cases kind <;> simp only [APLRotation.targetUnit] at ht <;>
      first
        | cases ht
        | simp only [APLRotation.newValue, APLRotation.newValueCurrentHealth,
            APLRotation.newValueCurrentHealthPercent, APLRotation.newValueCurrentMana,
            APLRotation.newValueCurrentManaPercent, ht]
  · intro p ht h
    refine ⟨rfl, ?_⟩
    obtain ⟨h1, h2, -⟩ := newValue_capability_cases rot kind heap config uuid p ht
    cases hc : kind.capability (heap p) with
    | false => rw [h2 hc]
    | true => rw [hc, h] at h1; cases h1
  · intro hk
    cases kind <;> first | rfl | simp at hk

/-- Witness for the amended C2: Current Energy on a unit without an energy bar returns nil
with one message for the UUID, and Current Mana on an unresolved source unit
returns nil with none. -/
theorem newValue_nil_message_or_unresolved_witness :
    (exampleSelfRotation.newValue ResourceValue.CurrentEnergy (fun _ => exampleUnit) ⟨none⟩
        ⟨"id"⟩).2.uuidWarnings =
        [⟨⟨"id"⟩, proto.LogLevel.Warning, "Dummy does not use Energy"⟩] ∧
      exampleRotation.newValue ResourceValue.CurrentMana (fun _ => exampleUnit) ⟨none⟩ ⟨"id"⟩ =
        (none, exampleRotation) :=
  ⟨((newValue_nil_message_or_unresolved exampleSelfRotation ResourceValue.CurrentEnergy
      (fun _ => exampleUnit) ⟨none⟩ ⟨"id"⟩).2.1 0 rfl rfl).2,
    (newValue_nil_message_or_unresolved exampleRotation ResourceValue.CurrentMana
      (fun _ => exampleUnit) ⟨none⟩ ⟨"id"⟩).1 rfl⟩

/-- Counterexample to C3: a Current Runic Power node built on a unit that holds
3000000000 runic power evaluates to an integer of at most 2147483647, not to the
unit's runic power truncated to an integer, which is 3000000000. -/
theorem CurrentRunicPower_beyond_int32 :
    exampleSelfRotation.newValue ResourceValue.CurrentRunicPower (fun _ => exampleRunicUnit)
        ⟨none⟩ ⟨"id"⟩ = (some (APLValue.CurrentRunicPower 0), exampleSelfRotation) ∧
      (exampleRunicSimulation.units 0).CurrentRunicPower = 3000000000 ∧
      ResourceValue.CurrentRunicPower.intOf (exampleRunicSimulation.units 0) = 3000000000 ∧
      ∃ n : Int, ((APLValue.CurrentRunicPower 0).GetInt exampleRunicSimulation).1 = some n ∧
        n ≤ 2147483647 ∧
        n ≠ ResourceValue.CurrentRunicPower.intOf (exampleRunicSimulation.units 0) := by
  have h3 : ResourceValue.CurrentRunicPower.intOf (exampleRunicSimulation.units 0)
      = 3000000000 := by
    simp [ResourceValue.intOf, exampleRunicSimulation, exampleRunicUnit, Unit.CurrentRunicPower]
  refine ⟨rfl, rfl, h3, -2147483648, ?_, by decide, ?_⟩
  · decide
  · rw [h3]; decide

/-- C3, amended. A successfully constructed `Current*` node, evaluated in any simulation
state with the getter matching its `Type()`, hands back the state unchanged, so a
second evaluation gives the same result; a Float node returns the value of its
resource held by its unit in that state, the combo points node returns the unit's
combo points, and the runic power node returns the unit's runic power truncated
toward zero to an integer provided the truncated value fits an `int32`. -/
theorem current_value_eval_reads_unit (rot rot' : APLRotation) (kind : ResourceValue)
    (heap : UnitId → Unit) (config : proto.APLValueSourceUnitConfig) (uuid : proto.UUID)
    (value : APLValue) (hk : kind.isCurrent = true)
    (hv : rot.newValue kind heap config uuid = (some value, rot')) :
    ∃ p, rot.targetUnit kind config = some p ∧ value.Type = kind.valueType ∧
      ∀ sim : Simulation,
        (kind.valueType = proto.APLValueType.ValueTypeFloat →
          value.GetFloat sim = (some (kind.floatOf (sim.units p)), sim) ∧
            value.GetFloat (value.GetFloat sim).2 = value.GetFloat sim) ∧
        (kind.valueType = proto.APLValueType.ValueTypeInt →
          (value.GetInt sim).2 = sim ∧
            value.GetInt (value.GetInt sim).2 = value.GetInt sim ∧
            (kind.fitsInt32 (sim.units p) →
              (value.GetInt sim).1 = some (kind.intOf (sim.units p)))) := by
  cases kind
  case MaxRunicPower => cases hk
  case CurrentHealth =>
    simp only [APLRotation.newValue, APLRotation.newValueCurrentHealth] at hv
    cases hg : (rot.GetSourceUnit config.SourceUnit).Get with
    | none => simp [hg] at hv
    | some p =>
      simp only [hg] at hv
      split at hv
      · cases hv
      · simp only [Prod.mk.injEq, Option.some.injEq] at hv
        obtain ⟨rfl, -⟩ := hv
        exact ⟨p, hg, rfl, fun sim => ⟨fun _ => by simp [APLValue.GetFloat, hg,
          ResourceValue.floatOf], fun hc => by cases hc⟩⟩
  case CurrentHealthPercent =>
    simp only [APLRotation.newValue, APLRotation.newValueCurrentHealthPercent] at hv
    cases hg : (rot.GetSourceUnit config.SourceUnit).Get with
    | none => simp [hg] at hv
    | some p =>
      simp only [hg] at hv
      split at hv
      · cases hv
      · simp only [Prod.mk.injEq, Option.some.injEq] at hv
        obtain ⟨rfl, -⟩ := hv
        exact ⟨p, hg, rfl, fun sim => ⟨fun _ => by simp [APLValue.GetFloat, hg,
          ResourceValue.floatOf], fun hc => by cases hc⟩⟩
  case CurrentMana =>
    simp only [APLRotation.newValue, APLRotation.newValueCurrentMana] at hv
    cases hg : (rot.GetSourceUnit config.SourceUnit).Get with
    | none => simp [hg] at hv
    | some p =>
      simp only [hg] at hv
      split at hv
      · cases hv
      · simp only [Prod.mk.injEq, Option.some.injEq] at hv
        obtain ⟨rfl, -⟩ := hv
        exact ⟨p, hg, rfl, fun sim => ⟨fun _ => by simp [APLValue.GetFloat, hg,
          ResourceValue.floatOf], fun hc => by cases hc⟩⟩
  case CurrentManaPercent =>
    simp only [APLRotation.newValue, APLRotation.newValueCurrentManaPercent] at hv
    cases hg : (rot.GetSourceUnit config.SourceUnit).Get with
    | none => simp [hg] at hv
    | some p =>
      simp only [hg] at hv
      split at hv
      · cases hv
      · simp only [Prod.mk.injEq, Option.some.injEq] at hv
        obtain ⟨rfl, -⟩ := hv
        exact ⟨p, hg, rfl, fun sim => ⟨fun _ => by simp [APLValue.GetFloat, hg,
          ResourceValue.floatOf], fun hc => by cases hc⟩⟩
  case CurrentRage =>
    simp only [APLRotation.newValue, APLRotation.newValueCurrentRage] at hv
    split at hv
    · cases hv
    · simp only [Prod.mk.injEq, Option.some.injEq] at hv
      obtain ⟨rfl, -⟩ := hv
      exact ⟨rot.unit, rfl, rfl, fun sim => ⟨fun _ => ⟨rfl, rfl⟩, fun hc => by cases hc⟩⟩
  case CurrentFocus =>
    simp only [APLRotation.newValue, APLRotation.newValueCurrentFocus] at hv
    split at hv
    · cases hv
    · simp only [Prod.mk.injEq, Option.some.injEq] at hv
      obtain ⟨rfl, -⟩ := hv
      exact ⟨rot.unit, rfl, rfl, fun sim => ⟨fun _ => ⟨rfl, rfl⟩, fun hc => by cases hc⟩⟩
  case CurrentEnergy =>
    simp only [APLRotation.newValue, APLRotation.newValueCurrentEnergy] at hv
    split at hv
    · cases hv
    · simp only [Prod.mk.injEq, Option.some.injEq] at hv
      obtain ⟨rfl, -⟩ := hv
      exact ⟨rot.unit, rfl, rfl, fun sim => ⟨fun _ => ⟨rfl, rfl⟩, fun hc => by cases hc⟩⟩
  case CurrentComboPoints =>
    simp only [APLRotation.newValue, APLRotation.newValueCurrentComboPoints] at hv
    split at hv
    · cases hv
    · simp only [Prod.mk.injEq, Option.some.injEq] at hv
      obtain ⟨rfl, -⟩ := hv
      exact ⟨rot.unit, rfl, rfl, fun sim =>
        ⟨fun hc => (by cases hc), fun _ => ⟨rfl, rfl, fun _ => rfl⟩⟩⟩
  case CurrentRunicPower =>
    simp only [APLRotation.newValue, APLRotation.newValueCurrentRunicPower] at hv
    split at hv
    · cases hv
    · simp only [Prod.mk.injEq, Option.some.injEq] at hv
      obtain ⟨rfl, -⟩ := hv
      refine ⟨rot.unit, rfl, rfl, fun sim =>
        ⟨fun hc => (by cases hc), fun _ => ⟨rfl, rfl, fun hfit => ?_⟩⟩⟩
      have ht : floatToInt (sim.units rot.unit).CurrentRunicPower =
          ResourceValue.CurrentRunicPower.intOf (sim.units rot.unit) := by
        simp only [ResourceValue.intOf]
        generalize (sim.units rot.unit).CurrentRunicPower = x
        unfold floatToInt
        split
        · rename_i h
          rw [Rat.floor_def]
          exact Int.tdiv_eq_ediv (Rat.num_nonneg.mpr h) (Int.natCast_nonneg _)
        · rename_i h
          have hn : 0 ≤ -x.num := by
            have := Rat.num_neg.mpr (not_le.mp h)
            omega
          have h1 : ⌈x⌉ = -⌊-x⌋ := by
            have := Int.ceil_neg (α := ℚ) (a := -x)
            rw [neg_neg] at this
            exact this
          rw [h1, Rat.floor_def, Rat.neg_num, Rat.neg_den,
            ← Int.tdiv_eq_ediv hn (Int.natCast_nonneg _), Int.neg_tdiv, neg_neg]
      simp only [ResourceValue.fitsInt32] at hfit
      simp only [APLValue.GetInt, int32OfFloat, ht, hfit, and_self, if_true]

/-- Witness for the amended C3: Current Runic Power built on a unit with a runic power
bar reads, in every state, the unit's truncated runic power when that fits an
`int32`, and hands the state back. -/
theorem current_value_eval_reads_unit_witness :
    exampleSelfRotation.newValue ResourceValue.CurrentRunicPower (fun _ => exampleRunicUnit)
        ⟨none⟩ ⟨"id"⟩ = (some (APLValue.CurrentRunicPower 0), exampleSelfRotation) ∧
      ∃ p, exampleSelfRotation.targetUnit ResourceValue.CurrentRunicPower ⟨none⟩ = some p ∧
        (APLValue.CurrentRunicPower 0).Type = ResourceValue.CurrentRunicPower.valueType ∧
        ∀ sim : Simulation,
          (ResourceValue.CurrentRunicPower.valueType = proto.APLValueType.ValueTypeFloat →
            (APLValue.CurrentRunicPower 0).GetFloat sim =
                (some (ResourceValue.CurrentRunicPower.floatOf (sim.units p)), sim) ∧
              (APLValue.CurrentRunicPower 0).GetFloat
                  ((APLValue.CurrentRunicPower 0).GetFloat sim).2 =
                (APLValue.CurrentRunicPower 0).GetFloat sim) ∧
          (ResourceValue.CurrentRunicPower.valueType = proto.APLValueType.ValueTypeInt →
            ((APLValue.CurrentRunicPower 0).GetInt sim).2 = sim ∧
              (APLValue.CurrentRunicPower 0).GetInt
                  ((APLValue.CurrentRunicPower 0).GetInt sim).2 =
                (APLValue.CurrentRunicPower 0).GetInt sim ∧
              (ResourceValue.CurrentRunicPower.fitsInt32 (sim.units p) →
                ((APLValue.CurrentRunicPower 0).GetInt sim).1 =
                  some (ResourceValue.CurrentRunicPower.intOf (sim.units p)))) :=
  ⟨rfl, current_value_eval_reads_unit exampleSelfRotation exampleSelfRotation
    ResourceValue.CurrentRunicPower (fun _ => exampleRunicUnit) ⟨none⟩ ⟨"id"⟩
    (APLValue.CurrentRunicPower 0) rfl rfl⟩

end core

namespace monk.CracklingJadeLightning

theorem OnTick_paid (s : State)
    (h : ApplyCostModifiers s (if StanceMatches s Stance.WiseSerpent then 0.0157 * s.BaseMana else 20)
      ≤ (if StanceMatches s Stance.WiseSerpent then CurrentMana s else CurrentEnergy s)) :
    OnTick s =
      let cost := ApplyCostModifiers s
        (if StanceMatches s Stance.WiseSerpent then 0.0157 * s.BaseMana else 20)
      let s1 := if StanceMatches s Stance.WiseSerpent then SpendMana s cost else SpendEnergy s cost
      let s2 := CalcAndDealPeriodicDamage s1 (avgScaling s1 + MeleeAttackPower s1 * 0.386)
      if (Proc s2).1 then AddChi (Proc s2).2 1 else (Proc s2).2 := by
  have h20 : (20.0 : ℚ) = 20 := by norm_num
  simp only [OnTick, canTick, h20, ge_iff_le, h, if_true]

theorem OnTick_refused (s : State)
    (h : (if StanceMatches s Stance.WiseSerpent then CurrentMana s else CurrentEnergy s) <
      ApplyCostModifiers s (if StanceMatches s Stance.WiseSerpent then 0.0157 * s.BaseMana else 20)) :
    OnTick s =
      AddPendingAction
        (ExtendGCDUntil (EnableMeleeSwing s) (s.CurrentTime + s.ChannelClipDelay))
        { NextActionAt := s.CurrentTime, OnAction := Action.dotDeactivate } := by
  have h20 : (20.0 : ℚ) = 20 := by norm_num
  have h' := not_le.mpr h
  simp only [OnTick, canTick, h20, ge_iff_le, h', if_false]
  rfl

/-- What the paying branch leaves behind, in terms of the state after the spend. -/
theorem paid_tail (s1 : State) :
    let s2 := CalcAndDealPeriodicDamage s1 (avgScaling s1 + MeleeAttackPower s1 * 0.386)
    let r := if (Proc s2).1 then AddChi (Proc s2).2 1 else (Proc s2).2
    r.periodicDamage =
        s1.periodicDamage ++ [(s1.CurrentTime, avgScaling s1 + MeleeAttackPower s1 * 0.386)] ∧
      r.stats = s1.stats ∧ r.dot = s1.dot ∧ r.pendingActions = s1.pendingActions ∧
      r.CurrentTime = s1.CurrentTime ∧ r.castSpeed = s1.castSpeed ∧
      r.ClassSpellScaling = s1.ClassSpellScaling ∧ r.BaseMana = s1.BaseMana ∧
      r.costModifiers = s1.costModifiers := by
  intro s2 r
  by_cases hp : (Proc s2).1 = true
  · simp only [r, hp, if_true]
    exact ⟨rfl, rfl, rfl, rfl, rfl, rfl, rfl, rfl, rfl⟩
  · simp only [r, hp]
    exact ⟨rfl, rfl, rfl, rfl, rfl, rfl, rfl, rfl, rfl⟩

theorem SpendEnergy_of_le (s : State) (cost : ℚ) (h : cost ≤ s.stats.currentEnergy) :
    SpendEnergy s cost =
      { s with stats := { s.stats with currentEnergy := s.stats.currentEnergy - cost } } := by
  simp [SpendEnergy, not_lt.mpr h]

theorem SpendMana_of_le (s : State) (cost : ℚ) (h : cost ≤ s.stats.currentMana) :
    SpendMana s cost =
      { s with stats := { s.stats with currentMana := s.stats.currentMana - cost } } := by
  simp [SpendMana, not_lt.mpr h]

/-- C4. At every tick of Crackling Jade Lightning the cost is checked against the resource
selected by the stance at that tick: mana with base cost `0.0157 * BaseMana` in
Wise Serpent stance, energy with base cost `20` otherwise, both after the cost
modifiers. When `cost ≤ current` the tick records one damage calculation, spends
exactly `cost` from that resource, leaves the other one untouched and ends with
a balance `≥ 0`. When `current < cost` nothing is spent, no damage is recorded
and the Chi count is unchanged. -/
theorem OnTick_affordability (s : State) :
    let wise := StanceMatches s Stance.WiseSerpent
    let cost := ApplyCostModifiers s (if wise then 0.0157 * s.BaseMana else 20)
    let current := if wise then CurrentMana s else CurrentEnergy s
    (cost ≤ current →
      (OnTick s).periodicDamage =
          s.periodicDamage ++ [(s.CurrentTime, avgScaling s + MeleeAttackPower s * 0.386)] ∧
        (wise = true →
          CurrentMana (OnTick s) = CurrentMana s - cost ∧
            CurrentEnergy (OnTick s) = CurrentEnergy s ∧ 0 ≤ CurrentMana (OnTick s)) ∧
        (wise = false →
          CurrentEnergy (OnTick s) = CurrentEnergy s - cost ∧
            CurrentMana (OnTick s) = CurrentMana s ∧ 0 ≤ CurrentEnergy (OnTick s))) ∧
    (current < cost →
      (OnTick s).periodicDamage = s.periodicDamage ∧ (OnTick s).chi = s.chi ∧
        CurrentMana (OnTick s) = CurrentMana s ∧ CurrentEnergy (OnTick s) = CurrentEnergy s) := by
  intro wise cost current
  constructor
  · intro h
    rw [OnTick_paid s h]
    cases hw : StanceMatches s Stance.WiseSerpent
    · have h2 : s.costModifiers 20 ≤ s.stats.currentEnergy := by
        simpa [current, cost, wise, hw, CurrentEnergy, ApplyCostModifiers] using h
      have hs := SpendEnergy_of_le s _ h2
      have ht := paid_tail (SpendEnergy s (s.costModifiers 20))
      simp only [wise, cost, hw, ApplyCostModifiers, CurrentMana, CurrentEnergy] at ht ⊢
      simp only [Bool.false_eq_true, if_false]
      obtain ⟨t1, t2, -⟩ := ht
      rw [t1, t2, hs]
      refine ⟨rfl, fun hc => absurd hc (by simp), fun _ => ⟨rfl, rfl, ?_⟩⟩
      simpa using h2
    · have h2 : s.costModifiers (0.0157 * s.BaseMana) ≤ s.stats.currentMana := by
        simpa [current, cost, wise, hw, CurrentMana, ApplyCostModifiers] using h
      have hs := SpendMana_of_le s _ h2
      have ht := paid_tail (SpendMana s (s.costModifiers (0.0157 * s.BaseMana)))
      simp only [wise, cost, hw, ApplyCostModifiers, CurrentMana, CurrentEnergy] at ht ⊢
      simp only [if_true]
      obtain ⟨t1, t2, -⟩ := ht
      rw [t1, t2, hs]
      refine ⟨rfl, fun _ => ⟨rfl, rfl, ?_⟩, fun hc => absurd hc (by simp)⟩
      simpa using h2
  · intro h
    rw [OnTick_refused s h]
    exact ⟨rfl, rfl, rfl, rfl⟩
/-- Witness for C4: with 15 energy and a cost of 20 energy the tick is refused. -/
theorem OnTick_affordability_witness :
    (OnTick exampleState).periodicDamage = [] ∧ (OnTick exampleState).chi = 0 ∧
      CurrentMana (OnTick exampleState) = 0 ∧ CurrentEnergy (OnTick exampleState) = 15 :=
  (OnTick_affordability exampleState).2
    (by simp [exampleState, StanceMatches, CurrentEnergy, ApplyCostModifiers]; norm_num)

end monk.CracklingJadeLightning

namespace monk.CracklingJadeLightning

theorem popNext_mem : ∀ (l : List PendingAction) (p : PendingAction) (r : List PendingAction),
    popNext l = some (p, r) → p ∈ l
  | [], p, r, h => by simp [popNext] at h
  | a :: rest, p, r, h => by
    unfold popNext at h
    cases hr : popNext rest with
    | none =>
      rw [hr] at h
      simp only [Option.some.injEq, Prod.mk.injEq] at h
      simp [h.1]
    | some q =>
      obtain ⟨pb, rest'⟩ := q
      rw [hr] at h
      have hm := popNext_mem rest pb rest' hr
      by_cases hc : a.NextActionAt ≤ pb.NextActionAt
      · simp only [hc, if_true, Option.some.injEq, Prod.mk.injEq] at h
        simp [h.1]
      · simp only [hc, if_false, Option.some.injEq, Prod.mk.injEq] at h
        rw [← h.1]
        exact List.mem_cons_of_mem _ hm

theorem popNext_eq_none : ∀ (l : List PendingAction), popNext l = none → l = []
  | [], _ => rfl
  | a :: rest, h => by
    unfold popNext at h
    cases hr : popNext rest with
    | none => rw [hr] at h; simp at h
    | some q =>
      obtain ⟨pb, rest'⟩ := q
      rw [hr] at h
      by_cases hc : a.NextActionAt ≤ pb.NextActionAt <;> simp [hc] at h

/-- The head of the queue is next when nothing behind it is due earlier. -/
theorem popNext_head (a : PendingAction) (rest : List PendingAction)
    (h : ∀ b ∈ rest, a.NextActionAt ≤ b.NextActionAt) :
    popNext (a :: rest) = some (a, rest) := by
  unfold popNext
  cases hr : popNext rest with
  | none => simp [popNext_eq_none rest hr]
  | some q =>
    obtain ⟨pb, rest'⟩ := q
    have hm := popNext_mem rest pb rest' hr
    simp [h pb hm]

/-- An action appended behind strictly later ones is next. -/
theorem popNext_append_last : ∀ (l : List PendingAction) (a : PendingAction),
    (∀ b ∈ l, a.NextActionAt < b.NextActionAt) → popNext (l ++ [a]) = some (a, l)
  | [], a, _ => by simp [popNext]
  | b :: l, a, h => by
    have ih := popNext_append_last l a (fun c hc => h c (List.mem_cons_of_mem _ hc))
    have hb : ¬ b.NextActionAt ≤ a.NextActionAt := not_le.mpr (h b (List.mem_cons_self _ _))
    simp [popNext, ih, hb]

end monk.CracklingJadeLightning

namespace monk.CracklingJadeLightning

theorem DotDeactivate_frame (t : State) :
    (DotDeactivate t).dot.active = false ∧ (DotDeactivate t).stats = t.stats ∧
      (DotDeactivate t).chi = t.chi ∧ (DotDeactivate t).periodicDamage = t.periodicDamage ∧
      (DotDeactivate t).gcdReadyAt = t.gcdReadyAt ∧
      (DotDeactivate t).meleeSwingEnabled = t.meleeSwingEnabled ∧
      (DotDeactivate t).CurrentTime = t.CurrentTime := by
  unfold DotDeactivate
  cases h : t.dot.active <;> simp [h]

/-- The state in which a popped action runs. -/
theorem arrive_of_pop (world : Int → Int → Stats → Stats) (s : State) (pa : PendingAction)
    (rest : List PendingAction) (h : popNext s.pendingActions = some (pa, rest)) :
    arrive world s = some (pa.OnAction, arrived world s pa rest) := by
  simp only [arrive, h, arrived]

theorem Advance_of_pop (world : Int → Int → Stats → Stats) (s : State) (pa : PendingAction)
    (rest : List PendingAction) (h : popNext s.pendingActions = some (pa, rest)) :
    Advance world s = pa.OnAction.run (arrived world s pa rest) := by
  simp only [Advance, arrive_of_pop world s pa rest h]

/-- C5. When the cost of a tick cannot be paid, the tick callback does not deactivate the
effect itself: on return the effect is still active, melee swings are enabled
again, `ExtendGCDUntil` has been called once, with `CurrentTime +
ChannelClipDelay`, so that the global cooldown lasts at least until then and
exactly until then unless it was locked for longer before, and exactly one
pending action has been added,
due at the current time, whose execution deactivates the effect and changes no
stat, Chi, damage record, cooldown or clock. With every other queued action due
later, the next `Advance` runs it without moving the clock, so the channel ends
in the same instant. -/
theorem OnTick_refused_defers_deactivation (world : Int → Int → Stats → Stats) (s : State)
    (hactive : s.dot.active = true)
    (h : (if StanceMatches s Stance.WiseSerpent then CurrentMana s else CurrentEnergy s) <
      ApplyCostModifiers s (if StanceMatches s Stance.WiseSerpent then 0.0157 * s.BaseMana else 20)) :
    (OnTick s).dot.active = true ∧
      (OnTick s).meleeSwingEnabled = true ∧
      (OnTick s).gcdRequests = s.gcdRequests ++ [s.CurrentTime + s.ChannelClipDelay] ∧
      s.CurrentTime + s.ChannelClipDelay ≤ (OnTick s).gcdReadyAt ∧
      (s.gcdReadyAt ≤ s.CurrentTime + s.ChannelClipDelay →
        (OnTick s).gcdReadyAt = s.CurrentTime + s.ChannelClipDelay) ∧
      (OnTick s).pendingActions =
        s.pendingActions ++ [{ NextActionAt := s.CurrentTime, OnAction := Action.dotDeactivate }] ∧
      (∀ t : State,
        (Action.dotDeactivate.run t).dot.active = false ∧
          (Action.dotDeactivate.run t).stats = t.stats ∧
          (Action.dotDeactivate.run t).chi = t.chi ∧
          (Action.dotDeactivate.run t).periodicDamage = t.periodicDamage ∧
          (Action.dotDeactivate.run t).gcdReadyAt = t.gcdReadyAt ∧
          (Action.dotDeactivate.run t).meleeSwingEnabled = t.meleeSwingEnabled ∧
          (Action.dotDeactivate.run t).CurrentTime = t.CurrentTime) ∧
      ((∀ b ∈ s.pendingActions, s.CurrentTime < b.NextActionAt) →
        (Advance world (periodicTick s)).CurrentTime = s.CurrentTime ∧
          (Advance world (periodicTick s)).dot.active = false) := by
  have hr := OnTick_refused s h
  refine ⟨?_, ?_, ?_, ?_, ?_, ?_, fun t => DotDeactivate_frame t, ?_⟩
  · rw [hr]; exact hactive
  · rw [hr]; rfl
  · rw [hr]; rfl
  · rw [hr]; exact le_max_right _ _
  · intro hle
    rw [hr]; exact max_eq_right hle
  · rw [hr]; rfl
  · intro hlater
    have hq : (periodicTick s).pendingActions =
        s.pendingActions ++ [{ NextActionAt := s.CurrentTime, OnAction := Action.dotDeactivate }] := by
      unfold periodicTick
      rw [hr]
      simp only [hactive, if_true]
      split <;> rfl
    have hpop := popNext_append_last s.pendingActions
      { NextActionAt := s.CurrentTime, OnAction := Action.dotDeactivate } hlater
    rw [← hq] at hpop
    rw [Advance_of_pop world _ _ _ hpop]
    have hf := DotDeactivate_frame (arrived world (periodicTick s)
      { NextActionAt := s.CurrentTime, OnAction := Action.dotDeactivate } s.pendingActions)
    exact ⟨hf.2.2.2.2.2.2, hf.1⟩

/-- Witness for C5: the refused tick of a monk with 15 energy queues the deactivation at
time 0, leaves the effect active and asks for the global cooldown until time 0. -/
theorem OnTick_refused_defers_deactivation_witness :
    exampleState.dot.active = true ∧ (OnTick exampleState).dot.active = true ∧
      (OnTick exampleState).gcdRequests = [0] ∧
      (OnTick exampleState).pendingActions = [{ NextActionAt := 0, OnAction := Action.dotDeactivate }] :=
  have h := OnTick_refused_defers_deactivation (fun _ _ st => st) exampleState rfl
    (by simp [exampleState, StanceMatches, CurrentEnergy, ApplyCostModifiers]; norm_num)
  ⟨rfl, h.1, h.2.2.1, h.2.2.2.2.2.1⟩

end monk.CracklingJadeLightning

namespace monk.CracklingJadeLightning

theorem canTick_iff (s : State) :
    (canTick s).1 = true ↔
      ApplyCostModifiers s (if StanceMatches s Stance.WiseSerpent then 0.0157 * s.BaseMana else 20)
        ≤ (if StanceMatches s Stance.WiseSerpent then CurrentMana s else CurrentEnergy s) := by
  have h20 : (20.0 : ℚ) = 20 := by norm_num
  simp only [canTick, h20, ge_iff_le]
  constructor
  · intro h
    by_contra hc
    simp [hc] at h
  · intro h
    simp [h]

theorem Spend_frame (s : State) (wise : Bool) (cost : ℚ) :
    let s1 := if wise then SpendMana s cost else SpendEnergy s cost
    s1.periodicDamage = s.periodicDamage ∧ s1.dot = s.dot ∧
      s1.pendingActions = s.pendingActions ∧ s1.CurrentTime = s.CurrentTime ∧
      s1.ClassSpellScaling = s.ClassSpellScaling ∧ s1.stats.attackPower = s.stats.attackPower := by
  cases wise
  · simp only [Bool.false_eq_true, if_false, SpendEnergy]
    split <;> exact ⟨rfl, rfl, rfl, rfl, rfl, rfl⟩
  · simp only [if_true, SpendMana]
    split <;> exact ⟨rfl, rfl, rfl, rfl, rfl, rfl⟩

theorem paid_tail_from (s s1 : State)
    (hf : s1.periodicDamage = s.periodicDamage ∧ s1.dot = s.dot ∧
      s1.pendingActions = s.pendingActions ∧ s1.CurrentTime = s.CurrentTime ∧
      s1.ClassSpellScaling = s.ClassSpellScaling ∧ s1.stats.attackPower = s.stats.attackPower) :
    let s2 := CalcAndDealPeriodicDamage s1 (avgScaling s1 + MeleeAttackPower s1 * 0.386)
    let r := if (Proc s2).1 then AddChi (Proc s2).2 1 else (Proc s2).2
    r.periodicDamage =
        s.periodicDamage ++ [(s.CurrentTime, avgScaling s + s.stats.attackPower * 0.386)] ∧
      r.dot = s.dot ∧ r.pendingActions = s.pendingActions ∧ r.CurrentTime = s.CurrentTime ∧
      r.ClassSpellScaling = s.ClassSpellScaling ∧ r.stats.attackPower = s.stats.attackPower := by
  intro s2 r
  obtain ⟨f1, f2, f3, f4, f5, f6⟩ := hf
  obtain ⟨t1, t2, t3, t4, t5, -, t7, -⟩ := paid_tail s1
  refine ⟨t1.trans ?_, t3.trans f2, t4.trans f3, t5.trans f4, t7.trans f5,
    (congrArg Stats.attackPower t2).trans f6⟩
  simp only [avgScaling, MeleeAttackPower, f1, f4, f5, f6]

/-- The tick that pays: one damage record, nothing scheduled, the effect untouched. -/
theorem OnTick_paid_fields (s : State) (h : (canTick s).1 = true) :
    (OnTick s).periodicDamage =
        s.periodicDamage ++ [(s.CurrentTime, avgScaling s + s.stats.attackPower * 0.386)] ∧
      (OnTick s).dot = s.dot ∧ (OnTick s).pendingActions = s.pendingActions ∧
      (OnTick s).CurrentTime = s.CurrentTime ∧
      (OnTick s).ClassSpellScaling = s.ClassSpellScaling ∧
      (OnTick s).stats.attackPower = s.stats.attackPower := by
  rw [OnTick_paid s ((canTick_iff s).mp h)]
  exact paid_tail_from s _ (Spend_frame s _ _)

/-- One affordable tick taken from the head of the queue. -/
theorem Advance_tick (world : Int → Int → Stats → Stats) (s : State) (t : Int)
    (rest : List PendingAction)
    (hq : s.pendingActions = { NextActionAt := t, OnAction := Action.dotTick } :: rest)
    (hle : ∀ b ∈ rest, t ≤ b.NextActionAt) (hactive : s.dot.active = true)
    (hpay : ticksAffordable world 1 s = true) :
    (Advance world s).periodicDamage =
        s.periodicDamage ++
          [(t, avgScaling s + (world s.CurrentTime t s.stats).attackPower * 0.386)] ∧
      (Advance world s).pendingActions = rest ∧
      (Advance world s).dot.tickCount = s.dot.tickCount + 1 ∧
      (Advance world s).dot.active = decide (s.dot.tickCount + 1 < 6) ∧
      (Advance world s).CurrentTime = t ∧
      (Advance world s).ClassSpellScaling = s.ClassSpellScaling ∧
      (Advance world s).stats.attackPower = (world s.CurrentTime t s.stats).attackPower := by
  have hpop : popNext s.pendingActions =
      some ({ NextActionAt := t, OnAction := Action.dotTick }, rest) := by
    rw [hq]; exact popNext_head _ _ hle
  have hc : (canTick (arrived world s { NextActionAt := t, OnAction := Action.dotTick } rest)).1
      = true := by
    simp only [ticksAffordable, arrive_of_pop world s _ _ hpop, ne_eq, not_true_eq_false,
      decide_False, Bool.false_or, Bool.and_true] at hpay
    exact hpay
  rw [Advance_of_pop world s _ _ hpop]
  obtain ⟨o1, o2, o3, o4, o5, o6⟩ := OnTick_paid_fields _ hc
  have ha : (arrived world s { NextActionAt := t, OnAction := Action.dotTick } rest).dot.active
      = true := hactive
  simp only [Action.run, periodicTick, ha, if_true, dotConfig]
  have hd : (OnTick (arrived world s { NextActionAt := t, OnAction := Action.dotTick } rest)).dot
      = s.dot := o2
  by_cases hk : s.dot.tickCount + 1 < 6
  · have : ¬ (6 ≤ s.dot.tickCount + 1) := by omega
    simp only [hd, ge_iff_le, this, if_false, hk, decide_True]
    exact ⟨o1, o3, trivial, hactive, o4, o5, o6⟩
  · have : 6 ≤ s.dot.tickCount + 1 := by omega
    simp only [hd, ge_iff_le, this, if_true, hk, decide_False]
    exact ⟨o1, o3, trivial, trivial, o4, o5, o6⟩

end monk.CracklingJadeLightning

namespace monk.CracklingJadeLightning

theorem ticksAffordable_succ (world : Int → Int → Stats → Stats) (n : Nat) (s : State)
    (h : ticksAffordable world (n + 1) s = true) :
    ticksAffordable world 1 s = true ∧ ticksAffordable world n (Advance world s) = true := by
  have e : ∀ m, ticksAffordable world (m + 1) s =
      (match arrive world s with
        | none => true
        | some (action, s') =>
          (action ≠ Action.dotTick || (canTick s').1) &&
            ticksAffordable world m (action.run s')) := fun _ => rfl
  rw [e] at h
  rw [e 0]
  cases ha : arrive world s with
  | none =>
    simp only [Advance, ha, true_and]
    cases n with
    | zero => rfl
    | succ m => rw [e m, ha]
  | some q =>
    obtain ⟨action, s'⟩ := q
    rw [ha] at h
    simp only [Bool.and_eq_true] at h
    simp only [Advance, ha, ticksAffordable, Bool.and_true]
    exact ⟨h.1, h.2⟩

theorem Advance_of_empty (world : Int → Int → Stats → Stats) (s : State)
    (h : s.pendingActions = []) : Advance world s = s := by
  simp [Advance, arrive, h, popNext]

theorem run_of_empty (world : Int → Int → Stats → Stats) :
    ∀ (n : Nat) (s : State), s.pendingActions = [] → run world n s = s
  | 0, _, _ => rfl
  | n + 1, s, h => by
    rw [run, Advance_of_empty world s h]
    exact run_of_empty world n s h

theorem run_add (world : Int → Int → Stats → Stats) :
    ∀ (m n : Nat) (s : State), run world (m + n) s = run world n (run world m s)
  | 0, n, s => by simp [run]
  | m + 1, n, s => by
    rw [Nat.add_right_comm, run, run]
    exact run_add world m n (Advance world s)

/-- The remaining ticks of a channel, all affordable, under constant attack power. -/
theorem channel_run (world : Int → Int → Stats → Stats)
    (hAP : ∀ a b st, (world a b st).attackPower = st.attackPower) (start : Int) (d : ℚ) :
    ∀ (n k : Nat) (s : State), k + n = 6 → s.dot.active = decide (k < 6) →
      s.dot.tickCount = k → s.pendingActions = tickQueue start k n →
      ticksAffordable world n s = true → avgScaling s + s.stats.attackPower * 0.386 = d →
      (run world n s).periodicDamage = s.periodicDamage ++ tickRecords start d k n ∧
        (run world n s).dot.active = false ∧ (run world n s).dot.tickCount = 6 ∧
        (run world n s).pendingActions = []
  | 0, k, s, hk, hact, hcount, hq, _, _ => by
    have hk6 : k = 6 := by omega
    subst hk6
    simp only [run, tickRecords, List.range'_zero, List.map_nil, List.append_nil]
    exact ⟨trivial, by simpa using hact, hcount, by simpa [tickQueue] using hq⟩
  | n + 1, k, s, hk, hact, hcount, hq, hpay, hd => by
    have hk6 : k < 6 := by omega
    have hq' : s.pendingActions =
        { NextActionAt := start + ((k : Int) + 1) * core.Second, OnAction := Action.dotTick } ::
          tickQueue start (k + 1) n := by
      rw [hq]; simp [tickQueue, List.range'_succ]
    have hle : ∀ b ∈ tickQueue start (k + 1) n,
        start + ((k : Int) + 1) * core.Second ≤ b.NextActionAt := by
      intro b hb
      simp only [tickQueue, List.mem_map, List.mem_range'_1] at hb
      obtain ⟨i, hi, rfl⟩ := hb
      have h1 : (k : Int) + 1 ≤ (i : Int) + 1 := by omega
      have h2 : (0 : Int) ≤ core.Second := by decide
      simp only
      nlinarith
    obtain ⟨hp1, hpn⟩ := ticksAffordable_succ world n s hpay
    have hact' : s.dot.active = true := by simpa [hk6] using hact
    obtain ⟨a1, a2, a3, a4, a5, a6, a7⟩ := Advance_tick world s _ _ hq' hle hact' hp1
    have ih := channel_run world hAP start d n (k + 1) (Advance world s) (by omega)
      (by rw [a4, hcount]) (by rw [a3, hcount]) a2 hpn
      (by
        rw [a7, hAP]
        simpa [avgScaling, a6] using hd)
    obtain ⟨i1, i2, i3, i4⟩ := ih
    rw [run]
    refine ⟨?_, i2, i3, i4⟩
    rw [i1, a1, hAP, hd]
    simp [tickRecords, List.range'_succ]

end monk.CracklingJadeLightning

namespace monk.CracklingJadeLightning

theorem ApplyEffects_landed (s : State) (hq : s.pendingActions = []) :
    (ApplyEffects s true).pendingActions = tickQueue s.CurrentTime 0 6 ∧
      (ApplyEffects s true).dot.active = true ∧ (ApplyEffects s true).dot.tickCount = 0 ∧
      (ApplyEffects s true).periodicDamage = s.periodicDamage ∧
      (ApplyEffects s true).ClassSpellScaling = s.ClassSpellScaling ∧
      (ApplyEffects s true).stats = s.stats := by
  refine ⟨?_, rfl, rfl, rfl, rfl, rfl⟩
  simp [ApplyEffects, ExtendGCDUntil, StopMeleeUntil, DotApply, hq, dotConfig,
    core.DotConfig.tickPeriod, tickActions, tickQueue, List.range']

/-- C10. A channel cast with an empty queue, in which every tick is affordable and the
attack power is not changed by the rest of the simulation, fires exactly six
ticks, at one, two, ... six seconds after the cast whatever the cast speed, each
passing `ClassSpellScaling * 0.1800000072 + 0.386 * attackPower` to the damage
calculation, so that the base damage adds up to six times that amount; after the
sixth tick the effect is inactive and nothing is left in the queue, however
often `Advance` is called afterwards. -/
theorem channel_six_ticks (world : Int → Int → Stats → Stats) (s : State) (n : Nat)
    (hq : s.pendingActions = [])
    (hAP : ∀ a b st, (world a b st).attackPower = st.attackPower)
    (hpay : ticksAffordable world 6 (ApplyEffects s true) = true) (hn : 6 ≤ n) :
    (run world n (ApplyEffects s true)).periodicDamage =
        s.periodicDamage ++
          [(s.CurrentTime + 1 * core.Second,
              s.ClassSpellScaling * 0.1800000072 + 0.386 * s.stats.attackPower),
           (s.CurrentTime + 2 * core.Second,
              s.ClassSpellScaling * 0.1800000072 + 0.386 * s.stats.attackPower),
           (s.CurrentTime + 3 * core.Second,
              s.ClassSpellScaling * 0.1800000072 + 0.386 * s.stats.attackPower),
           (s.CurrentTime + 4 * core.Second,
              s.ClassSpellScaling * 0.1800000072 + 0.386 * s.stats.attackPower),
           (s.CurrentTime + 5 * core.Second,
              s.ClassSpellScaling * 0.1800000072 + 0.386 * s.stats.attackPower),
           (s.CurrentTime + 6 * core.Second,
              s.ClassSpellScaling * 0.1800000072 + 0.386 * s.stats.attackPower)] ∧
      (((run world n (ApplyEffects s true)).periodicDamage.drop s.periodicDamage.length).map
          Prod.snd).sum =
        6 * (s.ClassSpellScaling * 0.1800000072 + 0.386 * s.stats.attackPower) ∧
      (run world n (ApplyEffects s true)).dot.tickCount = 6 ∧
      (run world n (ApplyEffects s true)).dot.active = false ∧
      (run world n (ApplyEffects s true)).pendingActions = [] := by
  obtain ⟨e1, e2, e3, e4, e5, e6⟩ := ApplyEffects_landed s hq
  have hd : avgScaling (ApplyEffects s true) + (ApplyEffects s true).stats.attackPower * 0.386 =
      s.ClassSpellScaling * 0.1800000072 + 0.386 * s.stats.attackPower := by
    simp only [avgScaling, e5, e6]; ring
  obtain ⟨r1, r2, r3, r4⟩ := channel_run world hAP s.CurrentTime _ 6 0 (ApplyEffects s true)
    rfl (by rw [e2]; rfl) e3 e1 hpay hd
  obtain ⟨m, rfl⟩ := Nat.exists_eq_add_of_le hn
  rw [run_add, run_of_empty world m _ r4]
  have hlist : (run world 6 (ApplyEffects s true)).periodicDamage =
      s.periodicDamage ++
          [(s.CurrentTime + 1 * core.Second, s.ClassSpellScaling * 0.1800000072 + 0.386 * s.stats.attackPower),
           (s.CurrentTime + 2 * core.Second, s.ClassSpellScaling * 0.1800000072 + 0.386 * s.stats.attackPower),
           (s.CurrentTime + 3 * core.Second, s.ClassSpellScaling * 0.1800000072 + 0.386 * s.stats.attackPower),
           (s.CurrentTime + 4 * core.Second, s.ClassSpellScaling * 0.1800000072 + 0.386 * s.stats.attackPower),
           (s.CurrentTime + 5 * core.Second, s.ClassSpellScaling * 0.1800000072 + 0.386 * s.stats.attackPower),
           (s.CurrentTime + 6 * core.Second, s.ClassSpellScaling * 0.1800000072 + 0.386 * s.stats.attackPower)] := by
    rw [r1, e4]
    simp [tickRecords, List.range']
  refine ⟨hlist, ?_, r3, r2, r4⟩
  rw [hlist]
  simp
  ring

end monk.CracklingJadeLightning

namespace monk.CracklingJadeLightning

theorem canTick_energy (s : State) (hw : s.stats.stance ≠ Stance.WiseSerpent)
    (h : s.costModifiers 20 ≤ s.stats.currentEnergy) : (canTick s).1 = true := by
  rw [canTick_iff]
  simpa [StanceMatches, hw, ApplyCostModifiers, CurrentEnergy] using h

theorem OnTick_energy (s : State) (hw : s.stats.stance ≠ Stance.WiseSerpent)
    (h : s.costModifiers 20 ≤ s.stats.currentEnergy) :
    (OnTick s).stats =
        { s.stats with currentEnergy := s.stats.currentEnergy - s.costModifiers 20 } ∧
      (OnTick s).costModifiers = s.costModifiers := by
  rw [OnTick_paid s ((canTick_iff s).mp (canTick_energy s hw h))]
  have hs : StanceMatches s Stance.WiseSerpent = false := by simp [StanceMatches, hw]
  simp only [hs, Bool.false_eq_true, if_false, ApplyCostModifiers]
  obtain ⟨-, t2, -, -, -, -, -, -, t9⟩ := paid_tail (SpendEnergy s (s.costModifiers 20))
  rw [t2, t9, SpendEnergy_of_le s _ h]
  exact ⟨rfl, rfl⟩

theorem periodicTick_fields (t : State) (ht : t.dot.active = true) :
    (periodicTick t).stats = (OnTick t).stats ∧
      (periodicTick t).costModifiers = (OnTick t).costModifiers ∧
      (periodicTick t).pendingActions = (OnTick t).pendingActions ∧
      (periodicTick t).dot.tickCount = (OnTick t).dot.tickCount + 1 ∧
      (periodicTick t).dot.active =
        ((OnTick t).dot.active && decide ((OnTick t).dot.tickCount + 1 < 6)) := by
  simp only [periodicTick, ht, if_true, dotConfig]
  split
  · rename_i h6
    have : ¬ ((OnTick t).dot.tickCount + 1 < 6) := by
      simp only [ge_iff_le] at h6; omega
    simp [this]
  · rename_i h6
    have : (OnTick t).dot.tickCount + 1 < 6 := by
      simp only [ge_iff_le] at h6; omega
    simp [this]

/-- With an energy budget for the remaining ticks and nothing else touching the
stats, every remaining tick is affordable. -/
theorem ticksAffordable_of_budget (start : Int) :
    ∀ (n k : Nat) (s : State), k + n = 6 → s.dot.active = decide (k < 6) →
      s.dot.tickCount = k →
      s.pendingActions = tickQueue start k n → s.stats.stance ≠ Stance.WiseSerpent →
      0 ≤ s.costModifiers 20 → (n : ℚ) * s.costModifiers 20 ≤ s.stats.currentEnergy →
      ticksAffordable (fun _ _ st => st) n s = true
  | 0, _, _, _, _, _, _, _, _, _ => rfl
  | n + 1, k, s, hk, hact, hcount, hq, hw, h0, hb => by
    have hk6 : k < 6 := by omega
    have hle : ∀ b ∈ tickQueue start (k + 1) n,
        start + ((k : Int) + 1) * core.Second ≤ b.NextActionAt := by
      intro b hb
      simp only [tickQueue, List.mem_map, List.mem_range'_1] at hb
      obtain ⟨i, hi, rfl⟩ := hb
      have h1 : (k : Int) + 1 ≤ (i : Int) + 1 := by omega
      have h2 : (0 : Int) ≤ core.Second := by decide
      simp only
      nlinarith
    have hpop : popNext s.pendingActions =
        some ({ NextActionAt := start + ((k : Int) + 1) * core.Second,
                OnAction := Action.dotTick }, tickQueue start (k + 1) n) := by
      rw [hq]
      simp only [tickQueue, List.range'_succ, List.map_cons]
      exact popNext_head _ _ hle
    have hc1 : s.costModifiers 20 ≤ s.stats.currentEnergy := by
      have : (0 : ℚ) ≤ n := Nat.cast_nonneg n
      push_cast at hb
      nlinarith
    have hact' : s.dot.active = true := by simpa [hk6] using hact
    have e : ticksAffordable (fun _ _ st => st) (n + 1) s =
      (match arrive (fun _ _ st => st) s with
        | none => true
        | some (action, s') =>
          (action ≠ Action.dotTick || (canTick s').1) &&
            ticksAffordable (fun _ _ st => st) n (action.run s')) := rfl
    rw [e, arrive_of_pop _ s _ _ hpop]
    obtain ⟨t, ht⟩ : ∃ t : State, t = arrived (fun _ _ st => st) s
      { NextActionAt := start + ((k : Int) + 1) * core.Second, OnAction := Action.dotTick }
      (tickQueue start (k + 1) n) := ⟨_, rfl⟩
    rw [← ht]
    have t1 : t.stats = s.stats := by rw [ht]; rfl
    have t2 : t.costModifiers = s.costModifiers := by rw [ht]; rfl
    have t3 : t.dot = s.dot := by rw [ht]; rfl
    have t4 : t.pendingActions = tickQueue start (k + 1) n := by rw [ht]; rfl
    have hc := canTick_energy t (t1 ▸ hw) (by rw [t1, t2]; exact hc1)
    simp only [hc, Bool.or_true, Bool.true_and]
    obtain ⟨o1, o2⟩ := OnTick_energy t (t1 ▸ hw) (by rw [t1, t2]; exact hc1)
    obtain ⟨-, p2, p3, -⟩ := OnTick_paid_fields t hc
    obtain ⟨q1, q2, q3, q4, q5⟩ := periodicTick_fields t (by rw [t3]; exact hact')
    rw [p2, t3] at q4 q5
    rw [o1, t1, t2] at q1
    rw [o2, t2] at q2
    rw [p3, t4] at q3
    show ticksAffordable _ n (periodicTick t) = true
    apply ticksAffordable_of_budget start n (k + 1) (periodicTick t) (by omega)
    · rw [q5, hact', hcount]; simp
    · rw [q4, hcount]
    · exact q3
    · rw [q1]; exact hw
    · rw [q2]; exact h0
    · rw [q2, q1]
      show (n : ℚ) * s.costModifiers 20 ≤ s.stats.currentEnergy - s.costModifiers 20
      push_cast at hb
      linarith

theorem exampleCaster_affordable :
    ticksAffordable (fun _ _ st => st) 6 (ApplyEffects exampleCaster true) = true :=
  ticksAffordable_of_budget 0 6 0 (ApplyEffects exampleCaster true) rfl rfl rfl
    (ApplyEffects_landed exampleCaster rfl).1 (by decide)
    (by show (0 : ℚ) ≤ 20; norm_num) (by show ((6 : ℕ) : ℚ) * 20 ≤ 120; norm_num)

/-- Witness for C10: 120 energy pays for the six ticks of one channel. -/
theorem channel_six_ticks_witness :
    exampleCaster.pendingActions = [] ∧
      (run (fun _ _ st => st) 6 (ApplyEffects exampleCaster true)).dot.tickCount = 6 ∧
      (run (fun _ _ st => st) 6 (ApplyEffects exampleCaster true)).dot.active = false :=
  have h := channel_six_ticks (fun _ _ st => st) exampleCaster 6 rfl (fun _ _ _ => rfl)
    exampleCaster_affordable (le_refl 6)
  ⟨rfl, h.2.2.1, h.2.2.2.1⟩

end monk.CracklingJadeLightning

namespace monk.Ascension

/-- C7. In exact arithmetic `OnGain` followed by `OnExpire` restores the energy regeneration
multiplier, and restores the Mana stat of a monk with a mana bar, because the
factor `1.15` of the gain is cancelled by the factor `1.0 / 1.15` of the expiry;
without a mana bar neither callback touches the Mana stat. -/
theorem OnExpire_OnGain_restores (s : State) :
    (OnExpire (OnGain s)).energyRegenMultiplier = s.energyRegenMultiplier ∧
      (HasManaBar s = true → (OnExpire (OnGain s)).mana = s.mana) ∧
      (HasManaBar s = false → (OnGain s).mana = s.mana ∧ (OnExpire s).mana = s.mana) ∧
      (1.15 : ℚ) * (1.0 / 1.15) = 1 := by
  refine ⟨?_, ?_, ?_, by norm_num⟩
  · simp only [OnGain, OnExpire, MultiplyEnergyRegenSpeed, SetMaxComboPoints, HasManaBar,
      MultiplyStatMana]
    cases s.manaBar <;> simp <;> norm_num <;> ring
  · intro h
    simp only [HasManaBar] at h
    simp only [OnGain, OnExpire, MultiplyEnergyRegenSpeed, SetMaxComboPoints, HasManaBar,
      MultiplyStatMana, h, if_true]
    norm_num
    ring
  · intro h
    simp only [HasManaBar] at h
    simp [OnGain, OnExpire, MultiplyEnergyRegenSpeed, SetMaxComboPoints, HasManaBar,
      MultiplyStatMana, h]

end monk.Ascension

namespace monk.ChiWave

theorem Advance_single (env : Env) (s : State) (pa : PendingAction)
    (hp : s.panicked = false) (hq : s.pendingActions = [pa]) :
    Advance env s =
      onLand env { s with CurrentTime := pa.NextActionAt, pendingActions := [] } pa.result := by
  simp [Advance, hp, hq, popNext]

/-- One landing with bounces left and `nextTarget` set: the result is dealt, the
counter moves, the other sub-spell is in flight and `nextTarget` is still set. -/
theorem onLand_bounce (env : Env) (s : State) (r : SpellResult) (hq : s.pendingActions = [])
    (hp : s.panicked = false) (u : core.UnitId) (hu : s.nextTarget = some u)
    (h : s.tickIndex < 7) :
    (onLand env s r).resolved = s.resolved ++ [r] ∧
      (onLand env s r).tickIndex = s.tickIndex + 1 ∧
      (onLand env s r).panicked = false ∧
      (∃ v, (onLand env s r).nextTarget = some v) ∧
      ∃ pa, (onLand env s r).pendingActions = [pa] ∧ pa.result.spell = r.spell.other := by
  obtain ⟨sp, tg, am⟩ := r
  cases sp <;>
    simp [onLand, h, hu, hp, SubSpell.Cast, SubSpell.ApplyEffects, WaitTravelTime, hq,
      SubSpell.other]

/-- The last landing: the result is dealt and nothing more is cast. -/
theorem onLand_last (env : Env) (s : State) (r : SpellResult) (hq : s.pendingActions = [])
    (h : s.tickIndex = 7) :
    (onLand env s r).resolved = s.resolved ++ [r] ∧ (onLand env s r).tickIndex = 7 ∧
      (onLand env s r).pendingActions = [] ∧ (onLand env s r).panicked = s.panicked := by
  obtain ⟨sp, tg, am⟩ := r
  cases sp <;> simp [onLand, h, hq]

theorem wave_Advance_of_empty (env : Env) (s : State) (h : s.pendingActions = []) :
    Advance env s = s := by
  simp [Advance, h, popNext]

theorem wave_run_of_empty (env : Env) :
    ∀ (n : Nat) (s : State), s.pendingActions = [] → run env n s = s
  | 0, _, _ => rfl
  | n + 1, s, h => by
    rw [run, wave_Advance_of_empty env s h]
    exact wave_run_of_empty env n s h

theorem wave_run_add (env : Env) :
    ∀ (m n : Nat) (s : State), run env (m + n) s = run env n (run env m s)
  | 0, n, s => by simp [run]
  | m + 1, n, s => by
    rw [Nat.add_right_comm, run, run]
    exact wave_run_add env m n (Advance env s)

/-- The rest of a chain with one result in flight, `j` bounces done and `nextTarget`
set. -/
theorem chain_run (env : Env) :
    ∀ (n j : Nat) (s : State) (pa : PendingAction), j + n = 7 → s.tickIndex = j →
      s.panicked = false → (∃ u, s.nextTarget = some u) →
      s.pendingActions = [pa] →
      (run env (n + 1) s).pendingActions = [] ∧ (run env (n + 1) s).tickIndex = 7 ∧
        (run env (n + 1) s).panicked = false ∧
        (run env (n + 1) s).resolved.map SpellResult.spell =
          s.resolved.map SpellResult.spell ++ alternating pa.result.spell (n + 1)
  | 0, j, s, pa, hj, ht, hp, _, hq => by
    have h7 : s.tickIndex = 7 := by rw [ht]; simp at hj; rw [hj]; rfl
    obtain ⟨l1, l2, l3, l4⟩ := onLand_last env
      { s with CurrentTime := pa.NextActionAt, pendingActions := [] } pa.result rfl h7
    simp only [run, Advance_single env s pa hp hq]
    refine ⟨l3, l2, by rw [l4]; exact hp, ?_⟩
    rw [l1]
    simp [alternating]
  | n + 1, j, s, pa, hj, ht, hp, ⟨u, hu⟩, hq => by
    have h7 : s.tickIndex < 7 := by rw [ht]; omega
    obtain ⟨b1, b2, b5, b6, pb, b3, b4⟩ := onLand_bounce env
      { s with CurrentTime := pa.NextActionAt, pendingActions := [] } pa.result rfl hp u hu h7
    have ih := chain_run env n (j + 1) (Advance env s) pb (by omega)
      (by rw [Advance_single env s pa hp hq, b2]; simp [ht])
      (by rw [Advance_single env s pa hp hq, b5])
      (by rw [Advance_single env s pa hp hq]; exact b6)
      (by rw [Advance_single env s pa hp hq, b3])
    rw [run]
    obtain ⟨i1, i2, i5, i3⟩ := ih
    refine ⟨i1, i2, i5, ?_⟩
    rw [i3, Advance_single env s pa hp hq, b1, b4]
    simp [alternating]

/-- Counterexample to C8: a cast of Chi Wave on the monk itself, a friendly unit with no
current target, leaves `nextTarget` nil; the healing result lands, the damage
spell is cast on the nil target, and when its result lands the dereference of
`nextTarget` at line 94 panics: after eight calls of `Advance` the run has ended
in a panic with two resolutions, not eight, and `tickIndex` at 2, not 7. -/
theorem chain_panics_without_current_target :
    exampleIdleEnv.IsOpponent 0 = false ∧ exampleIdleEnv.CurrentTarget 0 = none ∧
      exampleState.pendingActions = [] ∧
      (run exampleIdleEnv 8 (ApplyEffects exampleIdleEnv exampleState 0)).panicked = true ∧
      (run exampleIdleEnv 8 (ApplyEffects exampleIdleEnv exampleState 0)).resolved.map
          SpellResult.spell = [SubSpell.chiWaveHealingSpell, SubSpell.chiWaveDamageSpell] ∧
      (run exampleIdleEnv 8 (ApplyEffects exampleIdleEnv exampleState 0)).tickIndex = 2 := by
  refine ⟨rfl, rfl, rfl, ?_, ?_, ?_⟩ <;>
    simp [run, Advance, ApplyEffects, exampleIdleEnv, exampleEnv, exampleState, SubSpell.Cast,
      SubSpell.ApplyEffects, WaitTravelTime, popNext, onLand]

/-- C8, amended. After a cast of Chi Wave with nothing else in flight, on an opponent or on a
friendly unit that has a current target, eight calls of `Advance` (or more)
empty the queue without a panic: exactly eight sub-spell results have landed,
alternating between the damage and the healing spell, starting with damage when
the cast target is an opponent and with healing otherwise, and `tickIndex` ends
at 7. -/
theorem chain_resolves_eight_times (env : Env) (s : State) (target : core.UnitId) (n : Nat)
    (hq : s.pendingActions = []) (hp : s.panicked = false)
    (ht : env.IsOpponent target = true ∨ (env.CurrentTarget target).isSome = true)
    (hn : 8 ≤ n) :
    (run env n (ApplyEffects env s target)).pendingActions = [] ∧
      (run env n (ApplyEffects env s target)).panicked = false ∧
      (run env n (ApplyEffects env s target)).tickIndex = 7 ∧
      (run env n (ApplyEffects env s target)).resolved.map SpellResult.spell =
        s.resolved.map SpellResult.spell ++
          alternating (if env.IsOpponent target then SubSpell.chiWaveDamageSpell
            else SubSpell.chiWaveHealingSpell) 8 := by
  have h0 : (ApplyEffects env s target).tickIndex = 0 ∧
      (ApplyEffects env s target).resolved = s.resolved ∧
      (ApplyEffects env s target).panicked = false ∧
      (∃ u, (ApplyEffects env s target).nextTarget = some u) ∧
      ∃ pa, (ApplyEffects env s target).pendingActions = [pa] ∧
        pa.result.spell = (if env.IsOpponent target then SubSpell.chiWaveDamageSpell
            else SubSpell.chiWaveHealingSpell) := by
    cases ho : env.IsOpponent target
    · rw [ho] at ht
      have hc : (env.CurrentTarget target).isSome = true := by
        cases ht with
        | inl h => cases h
        | inr h => exact h
      obtain ⟨u, hu⟩ := Option.isSome_iff_exists.mp hc
      simp [ApplyEffects, ho, SubSpell.Cast, SubSpell.ApplyEffects, WaitTravelTime, hq, hp, hu]
    · simp [ApplyEffects, ho, SubSpell.Cast, SubSpell.ApplyEffects, WaitTravelTime, hq, hp]
  obtain ⟨a1, a2, a5, a6, pa, a3, a4⟩ := h0
  obtain ⟨r1, r2, r5, r3⟩ := chain_run env 7 0 (ApplyEffects env s target) pa rfl
    (by rw [a1]; rfl) a5 a6 a3
  obtain ⟨m, rfl⟩ := Nat.exists_eq_add_of_le hn
  rw [wave_run_add, wave_run_of_empty env m _ r1]
  refine ⟨r1, r5, r2, ?_⟩
  rw [r3, a2, a4]

/-- Witness for the amended C8: a cast on opponent 1 ends with `tickIndex = 7` and no
panic. -/
theorem chain_resolves_eight_times_witness :
    exampleState.pendingActions = [] ∧ exampleEnv.IsOpponent 1 = true ∧
      (run exampleEnv 8 (ApplyEffects exampleEnv exampleState 1)).panicked = false ∧
      (run exampleEnv 8 (ApplyEffects exampleEnv exampleState 1)).tickIndex = 7 :=
  have h := chain_resolves_eight_times exampleEnv exampleState 1 8 rfl rfl (Or.inl rfl)
    (le_refl 8)
  ⟨rfl, rfl, h.2.1, h.2.2.1⟩

end monk.ChiWave

namespace monk.ChiBrew

theorem getD_append_last (h : List PendingAction) (x d : PendingAction) :
    (h ++ [x]).getD h.length d = x := by
  simp [List.getD_eq_getElem?_getD]

theorem getD_append_left (h : List PendingAction) (x d : PendingAction) (p : Nat)
    (hp : p < h.length) : (h ++ [x]).getD p d = h.getD p d := by
  simp [List.getD_eq_getElem?_getD, List.getElem?_append_left hp]

theorem getD_set_self (h : List PendingAction) (x d : PendingAction) (p : Nat)
    (hp : p < h.length) : (h.set p x).getD p d = x := by
  simp [List.getD_eq_getElem?_getD, hp]

theorem getD_set_ne (h : List PendingAction) (x d : PendingAction) (p q : Nat)
    (hpq : p ≠ q) : (h.set p x).getD q d = h.getD q d := by
  simp [List.getD_eq_getElem?_getD, List.getElem?_set_ne hpq]

theorem OnReset_full (s : State) (h : Fresh s) : Full (OnReset s) := by
  obtain ⟨ct, act, st, ptr, heap, q, chi, mchi, brew, pan⟩ := s
  obtain ⟨h1, h2, h3, h4⟩ := h
  simp only at h1 h2 h3 h4
  subst h1 h2 h3 h4
  cases ptr with
  | none => simp [OnReset, Activate, SetStacks, MaxStacks, OnStacksChange, Full]
  | some p =>
    simp only [OnReset, Cancel]
    split <;> simp [Activate, SetStacks, MaxStacks, OnStacksChange, Full]

theorem castAt_full (s : State) (t : Int) (h : Full s) :
    OneCharging (castAt s t) s.heap.length ∧ (castAt s t).CurrentTime = t ∧
      (deref (castAt s t) s.heap.length).NextActionAt = t + rechargeDuration := by
  obtain ⟨ct, act, st, ptr, heap, q, chi, mchi, brew, pan⟩ := s
  obtain ⟨h1, h2, h3, h4, h5⟩ := h
  simp only at h1 h2 h3 h4 h5
  subst h1 h2 h3 h4 h5
  simp [castAt, ExtraCastCondition, GetStacks, ApplyEffects, AddChi, AddBrewStacks, RemoveStack,
    SetStacks, MaxStacks, OnStacksChange, AddPendingAction, OneCharging, deref,
    getD_append_last, rechargeDuration, core.Second]

end monk.ChiBrew

namespace monk.ChiBrew

theorem deref_of_lt (heap : List PendingAction) (a : Nat) (h : a < heap.length) :
    ∃ A, heap[a]? = some A ∧ heap.getD a nullAction = A ∧ heap[a] = A := by
  refine ⟨heap[a], ?_, ?_, rfl⟩ <;> simp [List.getD_eq_getElem?_getD, h]

theorem castAt_one (s : State) (t : Int) (a : Nat) (h : OneCharging s a)
    (hc : CanCastAt s t) :
    TwoCharging (castAt s t) a s.heap.length ∧ (castAt s t).CurrentTime = t ∧
      (deref (castAt s t) a).NextActionAt = (deref s a).NextActionAt ∧
      (deref (castAt s t) s.heap.length).NextActionAt = t + rechargeDuration := by
  obtain ⟨ct, act, st, ptr, heap, q, chi, mchi, brew, pan⟩ := s
  obtain ⟨h1, h2, h3, h4, h5, h6, h7, h8, h9, h10, h11⟩ := h
  obtain ⟨c1, c2⟩ := hc
  simp only [deref] at h1 h2 h3 h4 h5 h6 h7 h8 h9 h10 h11 c1 c2
  subst h1 h2 h3 h4 h5
  have c3 := c2 a (List.mem_singleton_self a)
  simp only [deref] at c3
  obtain ⟨A, hA, hd, hA'⟩ := deref_of_lt heap a h6
  rw [hd] at h7 h8 h9 h10 h11 c3
  have hne : a ≠ heap.length := Nat.ne_of_lt h6
  simp only [castAt, ExtraCastCondition, GetStacks, ApplyEffects, AddChi, AddBrewStacks,
    RemoveStack, SetStacks, MaxStacks, OnStacksChange, AddPendingAction, TwoCharging, deref]
  simp [List.getD_eq_getElem?_getD, List.getElem?_append, List.getElem?_set, hA, h6, h7, h8, h9,
    hne]
  exact ⟨c3, by linarith⟩

theorem castAt_two (s : State) (t : Int) (a b : Nat) (h : TwoCharging s a b)
    (hc : CanCastAt s t) :
    TwoCharging (castAt s t) a b ∧ (castAt s t).CurrentTime = t ∧
      (castAt s t).heap = s.heap := by
  obtain ⟨ct, act, st, ptr, heap, q, chi, mchi, brew, pan⟩ := s
  obtain ⟨h1, h2, h3, h4, h5, h6, h7, h8, h9, h10, h11, h12, h13, h14, h15, h16⟩ := h
  obtain ⟨c1, c2⟩ := hc
  simp only [deref] at h1 h2 h3 h4 h5 h6 h7 h8 h9 h10 h11 h12 h13 h14 h15 h16 c1 c2
  subst h1 h2 h3 h4 h5
  have c3 := c2 a (List.mem_cons_self a _)
  simp only [deref] at c3
  obtain ⟨A, hA, hda, hA'⟩ := deref_of_lt heap a (lt_trans h6 h7)
  obtain ⟨B, hB, hdb, hB'⟩ := deref_of_lt heap b h7
  rw [hda] at h8 h10 h11 h14 h15 c3
  rw [hdb] at h9 h12 h13 h15 h16
  simp only [castAt, ExtraCastCondition, GetStacks, TwoCharging, deref, hda, hdb]
  simp [List.getD_eq_getElem?_getD, hA, hB, hB', h6, h7, h8, h9, h10, h11, h12, h13, h15, c3]
  linarith

theorem Advance_full (s : State) (h : Full s) : Advance s = s := by
  obtain ⟨-, -, -, -, h5⟩ := h
  simp [Advance, h5, popNext]

theorem Advance_one (s : State) (a : Nat) (h : OneCharging s a) :
    Full (Advance s) ∧ (Advance s).CurrentTime = (deref s a).NextActionAt := by
  obtain ⟨ct, act, st, ptr, heap, q, chi, mchi, brew, pan⟩ := s
  obtain ⟨h1, h2, h3, h4, h5, h6, h7, h8, h9, h10, h11⟩ := h
  simp only [deref] at h1 h2 h3 h4 h5 h6 h7 h8 h9 h10 h11
  subst h1 h2 h3 h4 h5
  obtain ⟨A, hA, hd, hA'⟩ := deref_of_lt heap a h6
  rw [hd] at h7 h8 h9 h10 h11
  simp only [Advance, popNext, deref, hd, h9, Bool.false_eq_true, if_false, h7, OnAction.run,
    Activate, AddStack, SetStacks, MaxStacks, OnStacksChange, Full]
  simp

theorem Advance_two (s : State) (a b : Nat) (h : TwoCharging s a b) :
    OneCharging (Advance s) b ∧ (Advance s).CurrentTime = (deref s a).NextActionAt ∧
      (deref (Advance s) b).NextActionAt = (deref s b).NextActionAt := by
  obtain ⟨ct, act, st, ptr, heap, q, chi, mchi, brew, pan⟩ := s
  obtain ⟨h1, h2, h3, h4, h5, h6, h7, h8, h9, h10, h11, h12, h13, h14, h15, h16⟩ := h
  simp only [deref] at h1 h2 h3 h4 h5 h6 h7 h8 h9 h10 h11 h12 h13 h14 h15 h16
  subst h1 h2 h3 h4 h5
  obtain ⟨A, hA, hda, hA'⟩ := deref_of_lt heap a (lt_trans h6 h7)
  obtain ⟨B, hB, hdb, hB'⟩ := deref_of_lt heap b h7
  rw [hda] at h8 h10 h11 h14 h15
  rw [hdb] at h9 h12 h13 h15 h16
  have hne : a ≠ b := Nat.ne_of_lt h6
  simp only [Advance, popNext, deref, hda, hdb, h15, if_true, h11, Bool.false_eq_true, if_false,
    h8, OnAction.run, Activate, AddStack, SetStacks, MaxStacks, OnStacksChange, IsConsumed,
    OneCharging]
  simp [List.getD_eq_getElem?_getD, List.getElem?_set, hA, hB, hB', h7, h9, h12, h13, hne, h15]
  linarith

end monk.ChiBrew

namespace monk.ChiBrew

/-- Every reachable state has one of the three shapes. -/
theorem Reachable_shape (s : State) (h : Reachable s) :
    Full s ∨ (∃ a, OneCharging s a) ∨ ∃ a b, TwoCharging s a b := by
  induction h with
  | reset s hf => exact Or.inl (OnReset_full s hf)
  | cast s t _ hc ih =>
    rcases ih with hfull | ⟨a, hone⟩ | ⟨a, b, htwo⟩
    · exact Or.inr (Or.inl ⟨_, (castAt_full s t hfull).1⟩)
    · exact Or.inr (Or.inr ⟨_, _, (castAt_one s t a hone hc).1⟩)
    · exact Or.inr (Or.inr ⟨_, _, (castAt_two s t a b htwo hc).1⟩)
  | fire s _ ih =>
    rcases ih with hfull | ⟨a, hone⟩ | ⟨a, b, htwo⟩
    · rw [Advance_full s hfull]; exact Or.inl hfull
    · exact Or.inl (Advance_one s a hone).1
    · exact Or.inr (Or.inl ⟨_, (Advance_two s a b htwo).1⟩)

/-- C9. In every state reached after `OnReset` through casts and pending actions firing, no
nil pointer has been dereferenced, `chiBrewRecharge` is nil exactly when the
aura holds 2 charges, and otherwise it points to a queued recharge action that
has neither fired nor been cancelled and whose fire time is the least in the
queue; when two recharges are queued, firing the first moves the pointer to the
second. -/
theorem chiBrewRecharge_is_next_recharge (s : State) (h : Reachable s) :
    s.panicked = false ∧
      (s.chiBrewRecharge = none ↔ s.auraStacks = 2) ∧
      (∀ p, s.chiBrewRecharge = some p →
        Outstanding s p ∧
          ∀ q ∈ s.pendingActions, (deref s p).NextActionAt ≤ (deref s q).NextActionAt) ∧
      (∀ a b, s.pendingActions = [a, b] →
        (Advance s).chiBrewRecharge = some b ∧ Outstanding (Advance s) b) := by
  rcases Reachable_shape s h with hfull | ⟨a, hone⟩ | ⟨a, b, htwo⟩
  · obtain ⟨-, h2, h3, h4, h5⟩ := hfull
    refine ⟨h2, ?_, ?_, ?_⟩
    · simp [h3, h4]
    · intro p hp; rw [h4] at hp; cases hp
    · intro a b hq; rw [h5] at hq; cases hq
  · obtain ⟨-, h2, h3, h4, h5, -, -, h8, h9, -, -⟩ := hone
    refine ⟨h2, ?_, ?_, ?_⟩
    · simp [h3, h4]
    · intro p hp
      rw [h4] at hp
      cases hp
      refine ⟨⟨by simp [h5], h8, h9⟩, ?_⟩
      intro q hq
      rw [h5, List.mem_singleton] at hq
      rw [hq]
    · intro a b hq; rw [h5] at hq; simp at hq
  · have hadv := (Advance_two s a b htwo).1
    obtain ⟨-, h2, h3, h4, h5, -, -, -, -, h10, h11, -, -, -, h15, -⟩ := htwo
    refine ⟨h2, ?_, ?_, ?_⟩
    · simp [h3, h4]
    · intro p hp
      rw [h4] at hp
      cases hp
      refine ⟨⟨by simp [h5], h10, h11⟩, ?_⟩
      intro q hq
      rw [h5] at hq
      simp only [List.mem_cons, List.mem_singleton, List.not_mem_nil, or_false] at hq
      rcases hq with rfl | rfl
      · exact le_refl _
      · exact h15
    · intro a' b' hq
      rw [h5] at hq
      simp only [List.cons.injEq, and_true] at hq
      obtain ⟨rfl, rfl⟩ := hq
      obtain ⟨-, -, -, k4, k5, -, -, k8, k9, -, -⟩ := hadv
      exact ⟨k4, by simp [k5], k8, k9⟩

theorem exampleState_fresh : Fresh exampleState := ⟨rfl, rfl, rfl, rfl⟩

/-- Witness for C9: the state after one cast is reachable. -/
theorem chiBrewRecharge_is_next_recharge_witness :
    Reachable (castAt (OnReset exampleState) 10) ∧
      (castAt (OnReset exampleState) 10).panicked = false :=
  have hr : Reachable (castAt (OnReset exampleState) 10) :=
    Reachable.cast _ 10 (Reachable.reset _ exampleState_fresh)
      ⟨by decide, fun p hp => by simp [OnReset_full exampleState exampleState_fresh |>.2.2.2.2] at hp⟩
  ⟨hr, (chiBrewRecharge_is_next_recharge _ hr).1⟩

/-- C6. From a full Chi Brew aura, two casts at `t1 ≤ t2 < t1 + 45s` each schedule their own
recharge, due 45 seconds after their own cast: the count is back at 1 when the
clock reaches `t1 + 45s` and at 2 when it reaches `t2 + 45s`, which is before
`t1 + 90s`, and the queue is then empty. -/
theorem two_charges_recharge_independently (s : State) (t1 t2 : Int) (hfull : Full s)
    (h12 : t1 ≤ t2) (h : t2 < t1 + rechargeDuration) :
    (castAt s t1).auraStacks = 1 ∧
      (castAt (castAt s t1) t2).auraStacks = 0 ∧
      ((castAt (castAt s t1) t2).pendingActions.map fun p =>
          (deref (castAt (castAt s t1) t2) p).NextActionAt) =
        [t1 + rechargeDuration, t2 + rechargeDuration] ∧
      (Advance (castAt (castAt s t1) t2)).CurrentTime = t1 + rechargeDuration ∧
      (Advance (castAt (castAt s t1) t2)).auraStacks = 1 ∧
      (Advance (Advance (castAt (castAt s t1) t2))).CurrentTime = t2 + rechargeDuration ∧
      (Advance (Advance (castAt (castAt s t1) t2))).auraStacks = 2 ∧
      (Advance (Advance (castAt (castAt s t1) t2))).pendingActions = [] ∧
      t2 + rechargeDuration < t1 + 2 * rechargeDuration := by
  obtain ⟨a1, a2, a3⟩ := castAt_full s t1 hfull
  have hc : CanCastAt (castAt s t1) t2 := by
    refine ⟨by rw [a2]; exact h12, ?_⟩
    intro p hp
    rw [a1.2.2.2.2.1, List.mem_singleton] at hp
    rw [hp, a3]
    exact le_of_lt h
  obtain ⟨b1, b2, b3, b4⟩ := castAt_one _ t2 _ a1 hc
  obtain ⟨c1, c2, c3⟩ := Advance_two _ _ _ b1
  obtain ⟨d1, d2⟩ := Advance_one _ _ c1
  refine ⟨a1.2.2.1, b1.2.2.1, ?_, ?_, c1.2.2.1, ?_, d1.2.2.1, d1.2.2.2.2, by linarith⟩
  · rw [b1.2.2.2.2.1]
    simp only [List.map_cons, List.map_nil, b3, a3, b4]
  · rw [c2, b3, a3]
  · rw [d2, c3, b4]

/-- Witness for C6: casts at 0 and 5 seconds after a reset. -/
theorem two_charges_recharge_independently_witness :
    Full (OnReset exampleState) ∧
      (Advance (Advance (castAt (castAt (OnReset exampleState) 0)
        (5 * core.Second)))).auraStacks = 2 :=
  ⟨OnReset_full exampleState exampleState_fresh,
    (two_charges_recharge_independently (OnReset exampleState) 0 (5 * core.Second)
      (OnReset_full exampleState exampleState_fresh) (by decide) (by decide)).2.2.2.2.2.2.1⟩

end monk.ChiBrew

namespace monk.RushingJadeWind

/-- The first loop from index `j` with `k` targets left: one calculation per index, in
order, every cell from `j` on filled, nothing else touched. -/
theorem calcLoop_spec (env : Env) (N : Nat) (hN : env.numTargets = N) :
    ∀ (k j : Nat) (s : State) (results : Slice), j + k = N → s.panicked = false →
      results.len = N →
      ∃ results' : Slice,
        calcLoop env j (s, results) =
            ({ s with events := s.events ++ (List.range' j k).map (calcEvent env) }, results') ∧
          results'.len = N ∧
          (∀ i : Nat, j ≤ i → i < N → results'.cells i = some (resultOf env i)) ∧
          (∀ i : Nat, i < j → results'.cells i = results.cells i)
  | 0, j, s, results, hj, hp, hlen => by
    have hge : ¬ ((j : Int) < env.numTargets) := by
      rw [hN]; exact_mod_cast (by omega : ¬ j < N)
    have hnp : ¬ ((s, results).1.panicked = true) := by simp [hp]
    refine ⟨results, ?_, hlen, ?_, fun _ _ => rfl⟩
    · rw [calcLoop, if_neg hnp, dif_neg hge]
      simp
    · intro i h1 h2; omega
  | k + 1, j, s, results, hj, hp, hlen => by
    have hlt : (j : Int) < env.numTargets := by rw [hN]; exact_mod_cast (by omega : j < N)
    have hb : 0 ≤ (j : Int) ∧ (j : Int) < results.len := by
      rw [hlen]; exact ⟨Int.natCast_nonneg j, by exact_mod_cast (by omega : j < N)⟩
    obtain ⟨r', e1, e2, e3, e4⟩ := calcLoop_spec env N hN k (j + 1)
      { s with events := s.events ++ [calcEvent env j] }
      { results with cells := fun i => if i = (j : Int) then some (resultOf env j)
          else results.cells i }
      (by omega) hp hlen
    refine ⟨r', ?_, e2, ?_, ?_⟩
    · have step : calcLoop env j (s, results) =
          calcLoop env ((j + 1 : Nat) : Int)
            ({ s with events := s.events ++ [calcEvent env j] },
             { results with cells := fun i => if i = (j : Int) then some (resultOf env j)
                else results.cells i }) := by
        rw [calcLoop]
        simp only [hp, Bool.false_eq_true, if_false, hlt, dite_true, CalcDamage,
          CalculateMonkStrikeDamage, Slice.store, hb, and_self, if_true, calcEvent, resultOf,
          Nat.cast_add, Nat.cast_one]
      rw [step, e1]
      simp [List.range'_succ, List.append_assoc]
    · intro i h1 h2
      rcases Nat.eq_or_lt_of_le h1 with heq | hgt
      · subst heq
        rw [e4 j (by omega)]
        simp
      · exact e3 i (by omega) h2
    · intro i hi
      rw [e4 i (by omega)]
      have : (i : Int) ≠ (j : Int) := by exact_mod_cast (by omega : i ≠ j)
      simp [this]

/-- The second loop from index `j` with `k` targets left, on a slice whose cells from `j`
on hold the computed results: one deal per index, in order, nothing else
touched. -/
theorem dealLoop_spec (env : Env) (N : Nat) (hN : env.numTargets = N) :
    ∀ (k j : Nat) (s : State) (results : Slice), j + k = N → s.panicked = false →
      results.len = N →
      (∀ i : Nat, j ≤ i → i < N → results.cells i = some (resultOf env i)) →
      dealLoop env j (s, results) =
        ({ s with events := s.events ++ (List.range' j k).map (dealEvent env) }, results)
  | 0, j, s, results, hj, hp, _, _ => by
    have hge : ¬ ((j : Int) < env.numTargets) := by
      rw [hN]; exact_mod_cast (by omega : ¬ j < N)
    have hnp : ¬ ((s, results).1.panicked = true) := by simp [hp]
    rw [dealLoop, if_neg hnp, dif_neg hge]
    simp
  | k + 1, j, s, results, hj, hp, hlen, hcells => by
    have hlt : (j : Int) < env.numTargets := by rw [hN]; exact_mod_cast (by omega : j < N)
    have hb : 0 ≤ (j : Int) ∧ (j : Int) < results.len := by
      rw [hlen]; exact ⟨Int.natCast_nonneg j, by exact_mod_cast (by omega : j < N)⟩
    have hc := hcells j (le_refl j) (by omega)
    have step : dealLoop env j (s, results) =
        dealLoop env ((j + 1 : Nat) : Int)
          ({ s with events := s.events ++ [dealEvent env j] }, results) := by
      rw [dealLoop]
      simp only [hp, Bool.false_eq_true, if_false, hlt, dite_true, Slice.load, hb,
        and_self, if_true, hc, DealDamage, dealEvent, Nat.cast_add, Nat.cast_one]
    have ih := dealLoop_spec env N hN k (j + 1)
      { s with events := s.events ++ [dealEvent env j] } results (by omega) hp hlen
      (fun i h1 h2 => hcells i (by omega) h2)
    rw [step, ih]
    simp [List.range'_succ, List.append_assoc]

/-- The tick spell on a non-negative target count: all calculations, then all deals. -/
theorem TickSpell_ApplyEffects_spec (env : Env) (s : State) (target : core.UnitId)
    (hn : 0 ≤ env.numTargets) (hp : s.panicked = false) :
    TickSpell.ApplyEffects env s target =
      { s with events := s.events ++ (List.range env.numTargets.toNat).map (calcEvent env) ++
          (List.range env.numTargets.toNat).map (dealEvent env) } := by
  have hN : env.numTargets = (env.numTargets.toNat : Int) := (Int.toNat_of_nonneg hn).symm
  obtain ⟨r, e1, e2, e3, -⟩ := calcLoop_spec env env.numTargets.toNat hN env.numTargets.toNat 0 s
    (Slice.make env.numTargets) (by omega) hp hN
  have e4 := dealLoop_spec env env.numTargets.toNat hN env.numTargets.toNat 0
    { s with events := s.events ++ (List.range' 0 env.numTargets.toNat).map (calcEvent env) }
    r (by omega) hp e2 (fun i _ h2 => e3 i (Nat.zero_le i) h2)
  have hneg : ¬ env.numTargets < 0 := not_lt.mpr hn
  simp only [Nat.cast_zero] at e1 e4
  simp only [TickSpell.ApplyEffects, hneg, if_false, e1, e4, List.range_eq_range']

end monk.RushingJadeWind

namespace monk.RushingJadeWind

/-- The cast of Rushing Jade Wind on a non-negative target count: the Chi gain depends
on the captured target count alone, whatever the attacks of the tick did. -/
theorem ApplyEffects_chiGained (env : Env) (s : State) (target : core.UnitId)
    (hn : 0 ≤ env.numTargets) (hp : s.panicked = false) :
    (ApplyEffects env s target).chiGained =
        s.chiGained ++ (if env.numTargets ≥ 3 then [1] else []) ∧
      (ApplyEffects env s target).events =
        s.events ++ (List.range env.numTargets.toNat).map (calcEvent env) ++
          (List.range env.numTargets.toNat).map (dealEvent env) ∧
      (ApplyEffects env s target).chi =
        (if env.numTargets ≥ 3 then min (s.chi + 1) s.maxChi else s.chi) := by
  have ht := TickSpell_ApplyEffects_spec env (DotApply s) target hn hp
  have hp2 : (DotApply s).panicked = false := hp
  simp only [ApplyEffects, TickOnce, OnTick, TickSpell.Cast, ht, hp2, Bool.false_eq_true,
    if_false]
  split <;> simp [AddChi, BuffActivate, DotApply]

/-- C11, the code at a failing input. With three targets in the encounter and every attack
of the cast's tick missing, no target is hit, and the cast still gains 1 Chi:
the gain is decided by the target count captured at registration. -/
theorem cast_gains_chi_without_hits :
    exampleMisses.numTargets = 3 ∧
      hits (ApplyEffects exampleMisses exampleState 1).events = 0 ∧
      (ApplyEffects exampleMisses exampleState 1).chiGained = [1] ∧
      (ApplyEffects exampleMisses exampleState 1).chi = exampleState.chi + 1 := by
  obtain ⟨h1, h2, h3⟩ := ApplyEffects_chiGained exampleMisses exampleState 1 (by decide) rfl
  refine ⟨rfl, ?_, ?_, ?_⟩
  · rw [h2]
    simp [exampleState, List.range, List.range.loop, calcEvent, dealEvent, resultOf, hits,
      exampleMisses]
  · rw [h1]
    simp [exampleState, exampleMisses]
  · rw [h3]
    simp [exampleState, exampleMisses]

/-- C12. On every target count `n ≥ 0` a tick of Rushing Jade Wind, whatever unit it is cast
on, computes exactly one damage result for each target index `0 .. n-1`, for the
unit `GetTargetUnit idx`, computes all of them before dealing any, then deals
each computed result once in index order, and changes nothing else: in
particular no slice index is out of bounds and nothing panics. -/
theorem tick_enumerates_all_targets (env : Env) (s : State) (target : core.UnitId)
    (hn : 0 ≤ env.numTargets) (hp : s.panicked = false) :
    OnTick env s target =
        { s with
          events :=
            s.events ++
              (List.range env.numTargets.toNat).map
                (fun (i : Nat) => Event.calcDamage i (env.GetTargetUnit i) (env.strikeDamage i)) ++
              (List.range env.numTargets.toNat).map
                (fun (i : Nat) => Event.dealDamage i
                  { target := env.GetTargetUnit i, damage := env.strikeDamage i,
                    landed := env.outcome i }) } ∧
      (OnTick env s target).panicked = false ∧
      ∀ other : core.UnitId, OnTick env s other = OnTick env s target := by
  have h1 := TickSpell_ApplyEffects_spec env s target hn hp
  refine ⟨h1, ?_, fun other => ?_⟩
  · show (TickSpell.ApplyEffects env s target).panicked = false
    rw [h1]; exact hp
  · show TickSpell.ApplyEffects env s other = TickSpell.ApplyEffects env s target
    rw [h1, TickSpell_ApplyEffects_spec env s other hn hp]

/-- Witness for C12: a tick on two targets. -/
theorem tick_enumerates_all_targets_witness :
    (0 ≤ examplePair.numTargets ∧ exampleState.panicked = false) ∧
      (OnTick examplePair exampleState 1).panicked = false :=
  ⟨⟨by decide, rfl⟩, (tick_enumerates_all_targets examplePair exampleState 1 (by decide) rfl).2.1⟩

end monk.RushingJadeWind

namespace monk.ChiBrew

theorem outstanding_full (s : State) (h : Full s) : outstanding s = [] := by
  simp [outstanding, h.2.2.2.2]

theorem outstanding_one (s : State) (a : Nat) (h : OneCharging s a) : outstanding s = [a] := by
  obtain ⟨-, -, -, -, h5, -, -, h8, h9, -, -⟩ := h
  simp [outstanding, h5, h8, h9]

theorem outstanding_two (s : State) (a b : Nat) (h : TwoCharging s a b) :
    outstanding s = [a, b] := by
  obtain ⟨-, -, -, -, h5, -, -, -, -, h10, h11, h12, h13, -, -, -⟩ := h
  simp [outstanding, h5, h10, h11, h12, h13]

/-- C13. In every state reached after `OnReset` through casts and pending actions firing,
the charges on the aura plus the scheduled recharge actions that have not fired
make 2, and every queued action is such a recharge; so the charge count lies in
`[0, 2]` and at most two recharges are outstanding. A cast that finds a charge
removes exactly one charge and schedules exactly one recharge, due 45 seconds
later. -/
theorem charges_plus_recharges_is_two (s : State) (h : Reachable s) :
    s.auraStacks + ((outstanding s).length : Int) = 2 ∧
      outstanding s = s.pendingActions ∧
      0 ≤ s.auraStacks ∧ s.auraStacks ≤ 2 ∧ (outstanding s).length ≤ 2 ∧
      ∀ t, CanCastAt s t → ExtraCastCondition s = true →
        (castAt s t).auraStacks = s.auraStacks - 1 ∧
          (castAt s t).pendingActions = s.pendingActions ++ [s.heap.length] ∧
          outstanding (castAt s t) = outstanding s ++ [s.heap.length] ∧
          (deref (castAt s t) s.heap.length).NextActionAt = t + rechargeDuration := by
  rcases Reachable_shape s h with hfull | ⟨a, hone⟩ | ⟨a, b, htwo⟩
  · have ho := outstanding_full s hfull
    have hq := hfull.2.2.2.2
    have hs := hfull.2.2.1
    refine ⟨by rw [ho, hs]; rfl, by rw [ho, hq], by rw [hs]; decide, by rw [hs],
      by rw [ho]; simp, ?_⟩
    intro t _ _
    obtain ⟨c1, -, c3⟩ := castAt_full s t hfull
    refine ⟨by rw [c1.2.2.1, hs]; rfl, by rw [c1.2.2.2.2.1, hq]; rfl, ?_, c3⟩
    rw [outstanding_one _ _ c1, ho]; rfl
  · have ho := outstanding_one s a hone
    have hq := hone.2.2.2.2.1
    have hs := hone.2.2.1
    refine ⟨by rw [ho, hs]; rfl, by rw [ho, hq], by rw [hs]; decide, by rw [hs]; decide,
      by rw [ho]; simp, ?_⟩
    intro t hc _
    obtain ⟨c1, -, -, c4⟩ := castAt_one s t a hone hc
    refine ⟨by rw [c1.2.2.1, hs]; rfl, by rw [c1.2.2.2.2.1, hq]; rfl, ?_, c4⟩
    rw [outstanding_two _ _ _ c1, ho]; rfl
  · have ho := outstanding_two s a b htwo
    have hq := htwo.2.2.2.2.1
    have hs := htwo.2.2.1
    refine ⟨by rw [ho, hs]; rfl, by rw [ho, hq], by rw [hs], by rw [hs]; decide,
      by rw [ho]; simp, ?_⟩
    intro t _ hcast
    simp [ExtraCastCondition, GetStacks, hs] at hcast

/-- Witness for C13: the state after one cast is reachable. -/
theorem charges_plus_recharges_is_two_witness :
    Reachable (castAt (OnReset exampleState) 10) ∧
      (castAt (OnReset exampleState) 10).auraStacks +
        ((outstanding (castAt (OnReset exampleState) 10)).length : Int) = 2 :=
  have hr : Reachable (castAt (OnReset exampleState) 10) :=
    Reachable.cast _ 10 (Reachable.reset _ exampleState_fresh)
      ⟨by decide, fun p hp => by simp [OnReset_full exampleState exampleState_fresh |>.2.2.2.2] at hp⟩
  ⟨hr, (charges_plus_recharges_is_two _ hr).1⟩

end monk.ChiBrew
